import Mathlib

/-!
Verification development for the spyne model-base module
(`spyne/model/_base.py`): a shallow embedding of the type-descriptor
customization engine, the nullable/nillable alias machinery, the
prot_attrs merge map, the namespace-resolution algorithm, the push
sink and the store_as option records, together with theorems checking
the natural-language specification against the code.
-/

/-! ## Generic association lists (Python dict insertion and lookup) -/

/-- Lookup in an association list keyed by strings (Python dict lookup). -/
def alget {α : Type} (d : List (String × α)) (k : String) : Option α :=
  match d with
  | [] => none
  | (k2, v) :: t => if k2 = k then some v else alget t k

/-- Insertion into an association list (Python `d[k] = v`): overwrite the
existing binding for `k`, or append a new one. -/
def alinsert {α : Type} (d : List (String × α)) (k : String) (v : α) :
    List (String × α) :=
  match d with
  | [] => [(k, v)]
  | (k2, v2) :: t => if k2 = k then (k, v) :: t else (k2, v2) :: alinsert t k v

/-! ## Python values

The universe of attribute values the embedding tracks.  `vclsRef` is a
reference to a class living in the class heap below; `vsqla` is the
`sqla_column_args` pair: the (immutable) tuple of positional args by
value, and the mutable keyword-args dict as a *reference* into the
bundle-dict heap, because the source mutates that dict in place through
inheritance (`Attributes.sqla_column_args[-1][k] = v`, lines 444 and
456) while the tuple is only ever rebuilt and rebound (line 453);
`vfk` is the `sqlalchemy.schema.ForeignKey(v)` marker appended by the
`fk` kwarg; `vpadict` is a dict whose keys may be tuples, as passed to
`prot_attrs`; `vflatdict` is the flat `cdict` produced by
`_decode_pa_dict`; `vinf` stands for both `float('inf')` and
`Decimal('inf')`. -/

/-- A key of the dict passed to `prot_attrs`: a plain identifier or a
tuple grouping several identifiers. -/
inductive PAKey where
  | ident (s : String)
  | group (gs : List String)
deriving DecidableEq

inductive PVal where
  | vnone
  | vbool (b : Bool)
  | vint (z : Int)
  | vstr (s : String)
  | vinf
  | vclsRef (i : Nat)
  | vfk (target : PVal)
  | vsqla (pos : List PVal) (kw : Nat)
  | vpadict (entries : List (PAKey × PVal))
  | vflatdict (entries : List (String × PVal))

/-- Python `x is None`, applied to the result of an attribute lookup
(`getattr(obj, k, None) is None`): true when the attribute is missing or
bound to `None`. -/
def pvIsNone : Option PVal → Bool
  | some PVal.vnone => true
  | none => true
  | _ => false

/-! ## The Attribute Merge Map (`_decode_pa_dict`, lines 38-59)

The source makes two passes over the input dict: the first expands every
tuple key, binding each member of the tuple to the tuple's value; the
second applies the plain (non-tuple) keys, overwriting. -/

/-- First pass of `_decode_pa_dict`: expand every tuple (grouped) key. -/
def paExpandGroups {α : Type} (d : List (PAKey × α)) (r : List (String × α)) :
    List (String × α) :=
  d.foldl (fun r2 kv =>
    match kv.1 with
    | PAKey.group gs => gs.foldl (fun r3 s => alinsert r3 s kv.2) r2
    | PAKey.ident _ => r2) r

/-- Second pass of `_decode_pa_dict`: apply the plain keys, overwriting. -/
def paApplyPlain {α : Type} (d : List (PAKey × α)) (r : List (String × α)) :
    List (String × α) :=
  d.foldl (fun r2 kv =>
    match kv.1 with
    | PAKey.ident s => alinsert r2 s kv.2
    | PAKey.group _ => r2) r

/-- `_decode_pa_dict` (lines 38-59): decode the dict passed to
`prot_attrs` into a flat mapping.  Tuple keys are expanded first, then
plain keys are applied on top. -/
def _decode_pa_dict {α : Type} (d : List (PAKey × α)) : List (String × α) :=
  paApplyPlain d (paExpandGroups d [])

/-! ## `AttributesMeta` (lines 63-104): the nullable/nillable alias -/

/-- The process-wide default for the nullable/nillable flag
(`AttributesMeta.NULLABLE_DEFAULT`, line 64). -/
def AttributesMeta.NULLABLE_DEFAULT : Bool := true

/-- The nullability slot of an `Attributes` class: the `_nullable`
attribute managed by `AttributesMeta`.  `none` means "never explicitly
set" (stored as Python `None`). -/
structure AttributesState where
  _nullable : Option Bool

/-- `AttributesMeta.set_nullable` (lines 93-94). -/
def set_nullable (_st : AttributesState) (what : Bool) : AttributesState :=
  ⟨some what⟩

/-- `AttributesMeta.set_nillable` (lines 101-102): delegates to the
`nullable` property. -/
def set_nillable (st : AttributesState) (what : Bool) : AttributesState :=
  set_nullable st what

/-- `AttributesMeta.get_nullable` (lines 89-91): the stored value when
explicitly set, the process-wide default otherwise.  `dflt` is the
current value of the mutable global `NULLABLE_DEFAULT`. -/
def get_nullable (dflt : Bool) (st : AttributesState) : Bool :=
  st._nullable.getD dflt

/-- `AttributesMeta.get_nillable` (lines 98-99): delegates to the
`nullable` property. -/
def get_nillable (dflt : Bool) (st : AttributesState) : Bool :=
  get_nullable dflt st

/-- A write through either of the two aliased property names. -/
inductive NulOp where
  | setNullable (b : Bool)
  | setNillable (b : Bool)

/-- Apply a sequence of property writes to an `Attributes` class. -/
def applyNulOps (st : AttributesState) (ops : List NulOp) : AttributesState :=
  ops.foldl (fun s op =>
    match op with
    | NulOp.setNullable b => set_nullable s b
    | NulOp.setNillable b => set_nillable s b) st

/-! ## Serialization option records (lines 615-695) -/

/-- `xml` compound option object (lines 615-627). -/
structure XmlOpt where
  root_tag : Option String
  no_ns : Bool
  pretty_print : Bool
deriving DecidableEq

/-- The `xml()` zero-argument instance: `root_tag=None, no_ns=False,
pretty_print=False`. -/
def xmlDefault : XmlOpt := ⟨none, false, false⟩

/-- A Python value that is either a bool or a string, as allowed for the
`multi` and `cascade` arguments of `table`. -/
inductive PBoolStr where
  | pb (b : Bool)
  | ps (s : String)
deriving DecidableEq

/-- `table` compound option object (lines 630-659). -/
structure TableOpt where
  multi : PBoolStr
  left : Option String
  right : Option String
  backref : Option String
  id_backref : Option String
  cascade : PBoolStr
  lazy : String
  back_populates : Option String
deriving DecidableEq

/-- The `table()` zero-argument instance (the defaults of lines 650-651). -/
def tableDefault : TableOpt :=
  ⟨PBoolStr.pb false, none, none, none, none, PBoolStr.pb false, "select", none⟩

/-- The value of the `complex_as` argument of `json`: the `dict` or
`list` builtin (or some other callable). -/
inductive CAsTag where
  | asDict
  | asList
deriving DecidableEq

/-- `json` compound option object (lines 662-673). -/
structure JsonOpt where
  ignore_wrappers : Bool
  complex_as : CAsTag
deriving DecidableEq

/-- `json.__init__` raises `NotImplementedError` unless
`ignore_wrappers` is true (lines 669-671). -/
def jsonInit (ignore_wrappers : Bool) (complex_as : CAsTag) :
    Except String JsonOpt :=
  if ignore_wrappers ≠ true then Except.error "ignore_wrappers != True"
  else Except.ok ⟨ignore_wrappers, complex_as⟩

/-- The `json()` zero-argument instance: `ignore_wrappers=True,
complex_as=dict`. -/
def jsonDefault : JsonOpt := ⟨true, CAsTag.asDict⟩

/-- The four option classes that can appear as values of a pssm map. -/
inductive OptCls where
  | xmlC
  | tableC
  | jsonC
  | msgpackC
deriving DecidableEq

/-- A value that can be passed as `store_as`: a plain string or int
token, or an instance of one of the option classes (`msgpack()` carries
no fields, lines 676-683). -/
inductive StoreVal where
  | sstr (s : String)
  | sint (z : Int)
  | sxml (o : XmlOpt)
  | stable (o : TableOpt)
  | sjson (o : JsonOpt)
  | smsgpack
deriving DecidableEq

/-- The option class a value is an instance of (`isinstance` dispatch);
strings and ints are instances of none of them. -/
def classOf : StoreVal → Option OptCls
  | StoreVal.sstr _ => none
  | StoreVal.sint _ => none
  | StoreVal.sxml _ => some OptCls.xmlC
  | StoreVal.stable _ => some OptCls.tableC
  | StoreVal.sjson _ => some OptCls.jsonC
  | StoreVal.smsgpack => some OptCls.msgpackC

/-- The zero-argument instance of an option class (`val_c()`, line 695). -/
def defaultInstance : OptCls → StoreVal
  | OptCls.xmlC => StoreVal.sxml xmlDefault
  | OptCls.tableC => StoreVal.stable tableDefault
  | OptCls.jsonC => StoreVal.sjson jsonDefault
  | OptCls.msgpackC => StoreVal.smsgpack

/-- `pssm_map.get(val, None)`: lookup by value equality among the keys of
the map. -/
def svlookup (m : List (StoreVal × OptCls)) (v : StoreVal) : Option OptCls :=
  match m with
  | [] => none
  | (k, c) :: t => if k = v then some c else svlookup t v

/-- `isinstance(val, tuple(pssm_map.values()))`. -/
def isinstanceAny (v : StoreVal) (classes : List OptCls) : Bool :=
  match classOf v with
  | some c => classes.contains c
  | none => false

/-- The error taxonomy of the specification.  The Python source raises
these as `assert` failures; the specification (section 7) classifies the
conflicting-nullability and invalid-`store_as` failures as
`ConfigurationError`, so the embedding surfaces them under that name.
`invalidStoreAs` carries the acceptable keys and classes, mirroring the
message of lines 690-692. -/
inductive ConfigurationError where
  | conflictingNullability (nullable nillable : Bool)
  | invalidStoreAs (keys : List StoreVal) (classes : List OptCls) (val : StoreVal)
deriving DecidableEq

/-- `apply_pssm` (lines 686-695).  A `None` value falls through the
function body and returns `None`. -/
def apply_pssm (val : Option StoreVal) (pssm_map : List (StoreVal × OptCls)) :
    Except ConfigurationError (Option StoreVal) :=
  match val with
  | none => Except.ok none
  | some v =>
    match svlookup pssm_map v with
    | some val_c => Except.ok (some (defaultInstance val_c))
    | none =>
      if isinstanceAny v (pssm_map.map Prod.snd) then Except.ok (some v)
      else Except.error (ConfigurationError.invalidStoreAs
        (pssm_map.map Prod.fst) (pssm_map.map Prod.snd) v)

/-- `AttributesMeta.__init__` (lines 73-87): unify the `nullable` and
`nillable` keys of the class dict being constructed into the single
`_nullable` slot.  `inherited` is the `_nullable` value visible through
the base classes (`getattr(self, '_nullable', None)`); the result is the
`_nullable` value visible on the freshly constructed class.  The
conflicting-aliases `assert` of line 77 surfaces as the specification's
`ConfigurationError`. -/
def attributesMetaInit (nullable nillable inherited : Option Bool) :
    Except ConfigurationError (Option Bool) :=
  match nullable, nillable with
  | some nu, some ni =>
    if nu = ni then Except.ok (some nu)
    else Except.error (ConfigurationError.conflictingNullability nu ni)
  | some nu, none => Except.ok (some nu)
  | none, some ni => Except.ok (some ni)
  | none, none =>
    match inherited with
    | some b => Except.ok (some b)
    | none => Except.ok none

/-! ## `validate_native` (lines 474-480 and 559-567)

The value universe of a simple model is represented by `Int`; only
equality of values matters to the validation rules. -/

/-- `ModelBase.validate_native` (lines 474-480):
`cls.Attributes.nullable or value is not None`.  `nullable` is the
effective (defaulted) value of the constraint. -/
def ModelBase.validate_native (nullable : Bool) (value : Option Int) : Bool :=
  nullable || value.isSome

/-- `SimpleModel.validate_native` (lines 559-567): the base rule plus the
enumerated-`values` constraint.  `values = none` is Python
`Attributes.values is None`; the `nillable` read on line 564 is the same
effective flag as `nullable`. -/
def SimpleModel.validate_native (nullable : Bool) (values : Option (List Int))
    (value : Option Int) : Bool :=
  ModelBase.validate_native nullable value &&
  (match values with
   | none => true
   | some vs =>
     vs.isEmpty ||
     ((value.isNone && nullable) ||
      (match value with
       | some x => vs.contains x
       | none => false)))

/-- The specification's wording for `SimpleModel.validate_native`: the
base null rule, and additionally the value set is empty or unset, or the
value is null and nulls are permitted, or the value is a member of the
set. -/
def specSimpleValid (nullable : Bool) (values : Option (List Int))
    (value : Option Int) : Prop :=
  (value.isSome = true ∨ nullable = true) ∧
  (values = none ∨ values = some [] ∨
   (value = none ∧ nullable = true) ∨
   (∃ x, value = some x ∧ x ∈ values.getD []))

/-! ## The Push Sink (`PushBase`, lines 570-613)

The bound generator (producer) is modeled by the log of the values it
has been sent (`gen.send` delivers one value, in call order) plus its
reaction to being thrown the `Break` cancellation signal by `close`.
The `finishCalls` field instruments the number of times the bound
`_cb_finish` callback has run. -/

/-- How the producer reacts to `gen.throw(Break())` in `close`
(lines 607-612): it can let `Break` propagate, finish normally
(`StopIteration`), exit (`GeneratorExit`), yield another value (so the
`throw` call returns without raising), or raise some other exception. -/
inductive ThrowOutcome where
  | breakRaised
  | stopIteration
  | generatorExit
  | yieldsValue (v : PVal)
  | otherError (msg : String)

/-- The producer generator: the values delivered to it so far, in
delivery order, and its reaction to the cancellation signal. -/
structure PushGen where
  received : List PVal
  onBreak : ThrowOutcome

/-- The state of a `PushBase` sink. -/
structure PushBase where
  length : Nat
  gen : PushGen
  finishCalls : Nat

/-- `PushBase._init` (lines 583-593): bind the producer and reset
`length` to 0.  The freshly bound `_cb_finish` has not run yet. -/
def PushBase._init (_pb : PushBase) (gen : PushGen) : PushBase :=
  ⟨0, gen, 0⟩

/-- `PushBase.init` (lines 595-598): `_init`, then the optional
construction callback (whose return value the sink does not inspect). -/
def PushBase.init (pb : PushBase) (gen : PushGen) : PushBase :=
  PushBase._init pb gen

/-- `PushBase.append` (lines 603-605): `self.gen.send(inst)` delivers
`inst` to the producer, then `self.length += 1`. -/
def PushBase.append (pb : PushBase) (inst : PVal) : PushBase :=
  ⟨pb.length + 1, ⟨pb.gen.received ++ [inst], pb.gen.onBreak⟩, pb.finishCalls⟩

/-- `PushBase.close` (lines 607-612): throw `Break` into the producer;
`Break`, `StopIteration` and `GeneratorExit` are swallowed (and a plain
return of the `throw` call raises nothing either); any other exception
propagates, skipping `_cb_finish`.  On the non-raising paths
`self._cb_finish()` runs. -/
def PushBase.close (pb : PushBase) : Except String PushBase :=
  match pb.gen.onBreak with
  | ThrowOutcome.breakRaised => Except.ok ⟨pb.length, pb.gen, pb.finishCalls + 1⟩
  | ThrowOutcome.stopIteration => Except.ok ⟨pb.length, pb.gen, pb.finishCalls + 1⟩
  | ThrowOutcome.generatorExit => Except.ok ⟨pb.length, pb.gen, pb.finishCalls + 1⟩
  | ThrowOutcome.yieldsValue _ => Except.ok ⟨pb.length, pb.gen, pb.finishCalls + 1⟩
  | ThrowOutcome.otherError e => Except.error e

/-! ## Namespace resolution (`ModelBase.resolve_namespace`, lines 307-346)

Descriptors are the nodes of a finite graph; `ext` is the
`__extends__` pointer.  The `__namespace__` values live in a mutable
state `st` passed explicitly; `tags` is the visited set. -/

/-- A `__namespace__` value: Python `None`, the `DEFAULT_NS` unresolved
sentinel, or a string. -/
inductive PyNs where
  | pynone
  | sentinel
  | pystr (s : String)
deriving DecidableEq

/-- Modelled from the spec: the keys of `spyne.const.xml_ns.const_prefmap`
(the well-known prefix map), whose module is not part of this
repository snapshot.  The spec calls them "a reserved well-known prefix
map"; representative well-known namespaces are listed. -/
def const_prefmap : List String :=
  ["http://www.w3.org/2001/XMLSchema",
   "http://www.w3.org/2001/XMLSchema-instance",
   "http://schemas.xmlsoap.org/soap/envelope/"]

/-- Python `cls.__namespace__ is None or len(cls.__namespace__) == 0`.
Modelled from the spec: `DEFAULT_NS` is a distinguished non-empty marker
string, so its length is positive. -/
def nsNoneOrEmpty : PyNs → Bool
  | PyNs.pynone => true
  | PyNs.sentinel => false
  | PyNs.pystr s => s.isEmpty

/-- Python `f.startswith("_")`: the first character is an underscore.
(Phrased over the character list because `String.startsWith` is defined
by well-founded recursion and does not kernel-reduce.) -/
def startsWithUnderscore (f : String) : Bool :=
  match f.data with
  | [] => false
  | c :: _ => c = '_'

/-- Lines 328-335: derive a namespace from `cls.__module__`, keeping the
dot-separated segments up to the first one starting with `_`. -/
def moduleJoin (segs : List String) : String :=
  String.intercalate "." (segs.takeWhile (fun f => !startsWithUnderscore f))

/-- The `default_ns` argument as a `__namespace__` value. -/
def pyOfDns : Option String → PyNs
  | none => PyNs.pynone
  | some s => PyNs.pystr s

/-- A descriptor graph for namespace resolution: per-descriptor
`__module__` path, `is_default` answer and `__extends__` pointer. -/
structure NsGraph (n : Nat) where
  module : Fin n → List String
  is_default : Fin n → Bool
  ext : Fin n → Option (Fin n)

/-- The namespace value computed by the body of `resolve_namespace`
(lines 320-338) for a descriptor whose current `__namespace__` is
`ns0`: replace the sentinel by `default_ns`, reclaim well-known
namespaces of non-default descriptors, derive from the module path when
unset, and finally fall back to `default_ns` when still unset or
empty. -/
def resolveNsValue {n : Nat} (g : NsGraph n) (dns : Option String)
    (i : Fin n) (ns0 : PyNs) : PyNs :=
  let ns1 := if ns0 = PyNs.sentinel then pyOfDns dns else ns0
  let ns2 :=
    if (match ns1 with
        | PyNs.pystr s => const_prefmap.contains s
        | _ => false) && !g.is_default i
    then pyOfDns dns else ns1
  let ns3 := if ns2 = PyNs.pynone then PyNs.pystr (moduleJoin (g.module i)) else ns2
  if nsNoneOrEmpty ns3 then pyOfDns dns else ns3

/-- `ModelBase.resolve_namespace` (lines 307-346).  Returns the flag the
Python function returns, the updated `__namespace__` state, the final
visited set, and the trace of descriptors that were actually processed
(entered past the cycle guard), in order.  The `raise ValueError` of
line 341 is the error case, carrying the offending descriptor.  The
sequence of assignments to `cls.__namespace__` (collected in
`resolveNsValue`) is collapsed into a single final write, which is
observationally equivalent because the descriptor is already in `tags`
and hence never reread or rewritten in the same call. -/
def resolve_namespace {n : Nat} (g : NsGraph n) (dns : Option String)
    (i : Fin n) (st : Fin n → PyNs) (tags : Finset (Fin n)) :
    Except (Fin n) (Bool × (Fin n → PyNs) × Finset (Fin n) × List (Fin n)) :=
  if hmem : i ∈ tags then Except.ok (false, st, tags, [])
  else
    if hval : nsNoneOrEmpty (resolveNsValue g dns i (st i)) then Except.error i
    else
      let tags2 := insert i tags
      let st2 := fun j => if j = i then resolveNsValue g dns i (st i) else st j
      match g.ext i with
      | none => Except.ok (true, st2, tags2, [i])
      | some j =>
        match resolve_namespace g dns j st2 tags2 with
        | Except.error e => Except.error e
        | Except.ok (_, st3, tags3, tr) => Except.ok (true, st3, tags3, i :: tr)
termination_by n - tags.card
decreasing_by
  have h1 : (insert i tags).card = tags.card + 1 :=
    Finset.card_insert_of_not_mem hmem
  have h2 : (insert i tags).card ≤ n := by
    have := Finset.card_le_univ (insert i tags)
    simpa using this
  omega

/-! ## The class heap and `_s_customize` (lines 396-464)

Python classes are heap objects: each class has its own mutable
`__dict__` and a fixed method-resolution order.  The heap maps class
ids to class records; `customize` allocates new classes and writes only
to them, which is exactly what the mutation-isolation claims are about.
Attribute values are immutable `PVal`s. -/

/-- The dict of a class, as used by the descriptor machinery. -/
abbrev Dict := List (String × PVal)

/-- A Python class: its own dict and its linearized method-resolution
order (the class itself first). -/
structure PyCls where
  dict : Dict
  mro : List Nat

/-- The class heap: `len` ids are allocated; `get` of an unallocated id
yields the empty junk class.  `dlen`/`dget` form a second heap holding
the mutable keyword-args dicts of `sqla_column_args` bundles, which
Python shares by reference across descriptors and mutates in place. -/
structure Heap where
  len : Nat
  get : Nat → PyCls
  dlen : Nat
  dget : Nat → Dict

/-- Allocate a new class; its id is the old `h.len`. -/
def halloc (h : Heap) (c : PyCls) : Heap :=
  ⟨h.len + 1, fun j => if j = h.len then c else h.get j, h.dlen, h.dget⟩

/-- `setattr(class_i, k, v)`: rebind `k` in class `i`'s own dict. -/
def hSetattr (h : Heap) (i : Nat) (k : String) (v : PVal) : Heap :=
  ⟨h.len, fun j => if j = i then ⟨alinsert (h.get i).dict k v, (h.get i).mro⟩
                   else h.get j,
   h.dlen, h.dget⟩

/-- Allocate a fresh mutable bundle dict (the `{}` of line 424); its
reference is the old `h.dlen`. -/
def hDictAlloc (h : Heap) (d : Dict) : Heap :=
  ⟨h.len, h.get, h.dlen + 1, fun r => if r = h.dlen then d else h.dget r⟩

/-- In-place mutation of a shared bundle dict
(`…sqla_column_args[-1][k] = v`): every class holding a `vsqla` with
this reference observes the new binding. -/
def hDictWrite (h : Heap) (r : Nat) (k : String) (v : PVal) : Heap :=
  ⟨h.len, h.get, h.dlen,
   fun r2 => if r2 = r then alinsert (h.dget r) k v else h.dget r2⟩

/-- Walk a method-resolution order, returning the first binding of `k`. -/
def mroLookup (h : Heap) (mro : List Nat) (k : String) : Option PVal :=
  match mro with
  | [] => none
  | j :: t =>
    match alget (h.get j).dict k with
    | some v => some v
    | none => mroLookup h t k

/-- `getattr(class_i, k)`: lookup through the class's mro. -/
def hGetattr (h : Heap) (i : Nat) (k : String) : Option PVal :=
  mroLookup h (h.get i).mro k

/-- The id of `cls.Attributes`. -/
def attrsIdOf (h : Heap) (c : Nat) : Nat :=
  match hGetattr h c "Attributes" with
  | some (PVal.vclsRef i) => i
  | _ => 0

/-- The id of `cls.Annotations`. -/
def annIdOf (h : Heap) (c : Nat) : Nat :=
  match hGetattr h c "Annotations" with
  | some (PVal.vclsRef i) => i
  | _ => 0

/-- The `_nullable` slot visible on class `i` (through its mro), as an
`AttributesState`. -/
def nullableSlotOf (h : Heap) (i : Nat) : AttributesState :=
  match hGetattr h i "_nullable" with
  | some (PVal.vbool b) => ⟨some b⟩
  | _ => ⟨none⟩

/-- What reading `sqla_column_args` on class `i` observes: the
positional tuple and the *contents* of the shared keyword dict (the
dereferenced bundle, `Attributes.sqla_column_args[-1]` included). -/
def sqlaBundleOf (h : Heap) (i : Nat) : Option (List PVal × Dict) :=
  match hGetattr h i "sqla_column_args" with
  | some (PVal.vsqla pos r) => some (pos, h.dget r)
  | _ => none

/-- Heap well-formedness: the mro of every allocated class mentions only
allocated classes. -/
def HeapWF (h : Heap) : Prop :=
  ∀ i, i < h.len → ∀ j ∈ (h.get i).mro, j < h.len

/-- `class Attributes(cls.Attributes): pass` inside `_s_customize`
(lines 418-430): allocate the subclass (its id is `h.len`),
`AttributesMeta.__new__` plants `sqla_mapper_args = None` in its dict
(lines 66-71), `AttributesMeta.__init__` re-initializes `_nullable` when
it is unset through the chain (lines 84-85), `translations` and
`sqla_column_args` are re-initialized to empty containers when the
parent left them `None` (lines 421-424), and finally
`Attributes.nillable = cls.Attributes.nillable` re-applies the parent's
effective (defaulted) nullability through the property pair (line 430).
`dflt` is the current value of the `NULLABLE_DEFAULT` global. -/
def customizeAttrsCls (dflt : Bool) (h : Heap) (aPar : Nat) : Heap :=
  let aAttr := h.len
  let h1 := halloc h ⟨[("sqla_mapper_args", PVal.vnone)], aAttr :: (h.get aPar).mro⟩
  let h2 := if pvIsNone (hGetattr h1 aAttr "_nullable")
            then hSetattr h1 aAttr "_nullable" PVal.vnone else h1
  let h3 := if pvIsNone (hGetattr h aPar "translations")
            then hSetattr h2 aAttr "translations" (PVal.vflatdict []) else h2
  let h4 := if pvIsNone (hGetattr h aPar "sqla_column_args")
            then hSetattr (hDictAlloc h3 []) aAttr "sqla_column_args"
              (PVal.vsqla [] h3.dlen)
            else h3
  hSetattr h4 aAttr "_nullable"
    (PVal.vbool (get_nillable dflt (nullableSlotOf h aPar)))

/-- One iteration of the kwargs dispatch loop of `_s_customize`
(lines 436-462).  Writes go to the new `Attributes` class `aAttr` or the
new `Annotations` class `aAnn` — except the `primary_key`/`pk` and
`autoincrement`/`onupdate`/`server_default` branches (lines 444 and
455-456), which mutate the keyword dict of the effective
`sqla_column_args` bundle *in place*, through the shared reference: when
the bundle is inherited (the parent's was not `None`, so lines 423-424
did not reinitialize it), this mutates the parent descriptor's bundle
too.  The `fk` branch (lines 449-453) rebinds `sqla_column_args` on the
new class with an extended positional tuple but the *same* keyword-dict
reference.  (A malformed bundle leaves the heap unchanged; in Python the
subscript would raise, and no claim depends on that path.) -/
def applyKw1 (h : Heap) (aAttr aAnn : Nat) (k : String) (v : PVal) : Heap :=
  if startsWithUnderscore k then h
  else if k = "doc" ∨ k = "appinfo" then hSetattr h aAnn k v
  else if k = "primary_key" ∨ k = "pk" then
    match hGetattr h aAttr "sqla_column_args" with
    | some (PVal.vsqla _ kw) => hDictWrite h kw "primary_key" v
    | _ => h
  else if k = "prot_attrs" ∨ k = "pa" then
    hSetattr h aAttr "prot_attrs"
      (match v with
       | PVal.vpadict es => PVal.vflatdict (_decode_pa_dict es)
       | _ => PVal.vflatdict [])
  else if k = "foreign_key" ∨ k = "fk" then
    match hGetattr h aAttr "sqla_column_args" with
    | some (PVal.vsqla pos kw) =>
      hSetattr h aAttr "sqla_column_args" (PVal.vsqla (pos ++ [PVal.vfk v]) kw)
    | _ => h
  else if k = "autoincrement" ∨ k = "onupdate" ∨ k = "server_default" then
    match hGetattr h aAttr "sqla_column_args" with
    | some (PVal.vsqla _ kw) => hDictWrite h kw k v
    | _ => h
  else if k = "max_occurs" then
    match v with
    | PVal.vstr s =>
      if s = "unbounded" ∨ s = "inf" then hSetattr h aAttr k PVal.vinf
      else hSetattr h aAttr k v
    | PVal.vinf => hSetattr h aAttr k PVal.vinf
    | _ => hSetattr h aAttr k v
  else hSetattr h aAttr k v

/-- The kwargs dispatch loop of `_s_customize` (lines 436-462). -/
def applyKwargs (h : Heap) (aAttr aAnn : Nat) (kwargs : List (String × PVal)) :
    Heap :=
  kwargs.foldl (fun h2 kv => applyKw1 h2 aAttr aAnn kv.1 kv.2) h

/-- `ModelBase._s_customize` (lines 405-464) composed with the `type()`
call of `ModelBase.customize` (lines 396-403): build the new
`Attributes` subclass, the new `Annotations` subclass, apply the kwargs,
and allocate the new type-descriptor class whose dict carries
`__module__`, `__orig__` (only when the caller's is unset, lines
415-416), `Attributes` and `Annotations`, with the caller as base.
Returns the extended heap and the new class's id. -/
def customize (dflt : Bool) (h : Heap) (c : Nat)
    (kwargs : List (String × PVal)) : Heap × Nat :=
  let aPar := attrsIdOf h c
  let anPar := annIdOf h c
  let aAttr := h.len
  let aAnn := h.len + 1
  let cNew := h.len + 2
  let hA := customizeAttrsCls dflt h aPar
  let hB := halloc hA ⟨[], aAnn :: (h.get anPar).mro⟩
  let hC := applyKwargs hB aAttr aAnn kwargs
  let cdict : Dict :=
    [("__module__", (hGetattr h c "__module__").getD PVal.vnone)]
    ++ (if pvIsNone (hGetattr h c "__orig__")
        then [("__orig__", PVal.vclsRef c)] else [])
    ++ [("Attributes", PVal.vclsRef aAttr), ("Annotations", PVal.vclsRef aAnn)]
  (halloc hC ⟨cdict, cNew :: (h.get c).mro⟩, cNew)

/-- The concrete base heap: `ModelBase.Attributes` (id 0, with the
constraint defaults of lines 140-262; the `nillable = None` class-dict
entry is absorbed into the `_nullable = None` slot by
`AttributesMeta.__init__`), `ModelBase.Annotations` (id 1, lines
264-275) and `ModelBase` itself (id 2, lines 107-130). -/
def baseHeap : Heap :=
  ⟨3, fun j =>
    if j = 0 then
      ⟨[("sqla_mapper_args", PVal.vnone),
        ("_wrapper", PVal.vbool false),
        ("default", PVal.vnone),
        ("default_factory", PVal.vnone),
        ("_nullable", PVal.vnone),
        ("min_occurs", PVal.vint 0),
        ("max_occurs", PVal.vint 1),
        ("schema_tag", PVal.vstr "\x7bhttp://www.w3.org/2001/XMLSchema\x7delement"),
        ("translations", PVal.vnone),
        ("sub_ns", PVal.vnone),
        ("sub_name", PVal.vnone),
        ("sqla_column_args", PVal.vnone),
        ("exc_mapper", PVal.vbool false),
        ("exc_table", PVal.vbool false),
        ("exc_interface", PVal.vbool false),
        ("logged", PVal.vbool true),
        ("unique", PVal.vnone),
        ("db_type", PVal.vnone),
        ("table_name", PVal.vnone),
        ("xml_choice_group", PVal.vnone),
        ("index", PVal.vnone),
        ("read_only", PVal.vbool false),
        ("prot_attrs", PVal.vnone),
        ("pa", PVal.vnone),
        ("empty_is_none", PVal.vbool false),
        ("order", PVal.vnone)], [0]⟩
    else if j = 1 then
      ⟨[("__use_parent_doc__", PVal.vbool false),
        ("doc", PVal.vstr ""),
        ("appinfo", PVal.vnone)], [1]⟩
    else if j = 2 then
      ⟨[("__module__", PVal.vstr "spyne.model._base"),
        ("__orig__", PVal.vnone),
        ("__extends__", PVal.vnone),
        ("__namespace__", PVal.vnone),
        ("__type_name__", PVal.vnone),
        ("Attributes", PVal.vclsRef 0),
        ("Annotations", PVal.vclsRef 1)], [2]⟩
    else ⟨[], []⟩,
   0, fun _ => []⟩

/-! ## Concrete inputs used by the theorems below -/

/-- The spec's worked example for `_decode_pa_dict`:
the dict with keys `("a","b") -> 1` and `"a" -> 2`. -/
def paExample : List (PAKey × Int) :=
  [(PAKey.group ["a", "b"], 1), (PAKey.ident "a", 2)]

/-- A prot_attrs dict with two overlapping grouped keys. -/
def paOverlap : List (PAKey × Int) :=
  [(PAKey.group ["a", "b"], 1), (PAKey.group ["b", "c"], 2)]

/-- The grouped-key clause of claim C4, stated at a single input: every
member of each grouped key that is not also a plain key is bound to that
group's value. -/
def C4GroupClause (d : List (PAKey × Int)) : Prop :=
  ∀ gs v s, (PAKey.group gs, v) ∈ d → s ∈ gs →
    (∀ w, (PAKey.ident s, w) ∉ d) →
    alget (_decode_pa_dict d) s = some v

/-- A one-descriptor graph whose extends chain is a self-cycle and whose
module path yields no namespace (its single segment starts with `_`). -/
def cycleG : NsGraph 1 :=
  ⟨fun _ => ["_hidden"], fun _ => true, fun i => some i⟩

/-- Initial namespaces for `cycleG`: unset (`None`). -/
def cycleSt : Fin 1 → PyNs := fun _ => PyNs.pynone

/-! # Theorems -/

/-! ### Association-list lemmas -/

theorem alget_alinsert_self {α : Type} (d : List (String × α)) (k : String)
    (v : α) : alget (alinsert d k v) k = some v := by
  induction d with
  | nil => simp [alinsert, alget]
  | cons kv t ih =>
    obtain ⟨k2, v2⟩ := kv
    by_cases hk : k2 = k
    · subst hk; simp [alinsert, alget]
    · simp [alinsert, alget, hk, ih]

theorem alget_alinsert_ne {α : Type} (d : List (String × α)) (k k2 : String)
    (v : α) (h : k ≠ k2) : alget (alinsert d k v) k2 = alget d k2 := by
  induction d with
  | nil => simp [alinsert, alget, h]
  | cons kv t ih =>
    obtain ⟨k3, v3⟩ := kv
    by_cases hk : k3 = k
    · subst hk
      simp [alinsert, alget, h]
    · simp [alinsert, alget, hk, ih]

/-! ### C2: the nullable/nillable alias -/

/-- C2: after setting either `nullable` or `nillable` to `b`, both
property reads return `b`, whatever writes happened before; when neither
was ever set, both read the process-wide default, whose initial value
(`AttributesMeta.NULLABLE_DEFAULT`) permits nulls. -/
theorem nullable_nillable_alias :
    (∀ dflt st ops b,
      get_nullable dflt (applyNulOps st (ops ++ [NulOp.setNullable b])) = b ∧
      get_nillable dflt (applyNulOps st (ops ++ [NulOp.setNullable b])) = b ∧
      get_nullable dflt (applyNulOps st (ops ++ [NulOp.setNillable b])) = b ∧
      get_nillable dflt (applyNulOps st (ops ++ [NulOp.setNillable b])) = b) ∧
    (∀ dflt, get_nullable dflt ⟨none⟩ = dflt ∧ get_nillable dflt ⟨none⟩ = dflt) ∧
    AttributesMeta.NULLABLE_DEFAULT = true := by
  refine ⟨?_, ?_, rfl⟩
  · intro dflt st ops b
    simp [applyNulOps, List.foldl_append, get_nullable, get_nillable,
      set_nullable, set_nillable]
  · intro dflt
    simp [get_nullable, get_nillable]

/-! ### C8: conflicting nullability aliases at construction -/

/-- C8: supplying both `nullable` and `nillable` with unequal values
makes `AttributesMeta.__init__` fail with the specification's
`ConfigurationError`; agreeing or single-sided supplies succeed and
store the supplied value. -/
theorem attributes_meta_nullability_conflict :
    (∀ b1 b2 inh, b1 ≠ b2 →
      attributesMetaInit (some b1) (some b2) inh =
        Except.error (ConfigurationError.conflictingNullability b1 b2)) ∧
    (∀ b inh, attributesMetaInit (some b) (some b) inh = Except.ok (some b)) ∧
    (∀ b inh, attributesMetaInit (some b) none inh = Except.ok (some b) ∧
      attributesMetaInit none (some b) inh = Except.ok (some b)) := by
  refine ⟨?_, ?_, ?_⟩ <;> intros <;> simp_all [attributesMetaInit]

/-- Witness for C8 at concrete inputs: `nullable=True, nillable=False`
conflicts, and each agreeing combination succeeds. -/
theorem attributes_meta_nullability_conflict_witness :
    attributesMetaInit (some true) (some false) none =
      Except.error (ConfigurationError.conflictingNullability true false) ∧
    attributesMetaInit (some false) (some false) none = Except.ok (some false) ∧
    attributesMetaInit (some true) none none = Except.ok (some true) := by
  refine ⟨attributes_meta_nullability_conflict.1 true false none (by decide),
    attributes_meta_nullability_conflict.2.1 false none,
    (attributes_meta_nullability_conflict.2.2 true none).1⟩

/-! ### C9: `SimpleModel.validate_native` -/

/-- C9: `SimpleModel.validate_native` accepts exactly when the base null
rule holds and, in addition, the enumerated value set is empty or unset,
or the value is null and nulls are permitted, or the value is a member
of the set. -/
theorem simple_validate_native_spec (nullable : Bool)
    (values : Option (List Int)) (value : Option Int) :
    SimpleModel.validate_native nullable values value = true ↔
      specSimpleValid nullable values value := by
  cases values with
  | none =>
    cases value <;>
      simp [SimpleModel.validate_native, ModelBase.validate_native,
        specSimpleValid]
  | some vs =>
    cases value <;>
      simp [SimpleModel.validate_native, ModelBase.validate_native,
        specSimpleValid, List.isEmpty_iff]

/-! ### C6: the push sink -/

theorem push_foldl_append (pb : PushBase) (xs : List PVal) :
    (xs.foldl PushBase.append pb).gen.received = pb.gen.received ++ xs ∧
    (xs.foldl PushBase.append pb).length = pb.length + xs.length ∧
    (xs.foldl PushBase.append pb).gen.onBreak = pb.gen.onBreak ∧
    (xs.foldl PushBase.append pb).finishCalls = pb.finishCalls := by
  induction xs generalizing pb with
  | nil => simp
  | cons x t ih =>
    simp only [List.foldl_cons]
    obtain ⟨h1, h2, h3, h4⟩ := ih (pb.append x)
    have ha : (pb.append x).gen.received = pb.gen.received ++ [x] := rfl
    have hb : (pb.append x).length = pb.length + 1 := rfl
    have hc : (pb.append x).gen.onBreak = pb.gen.onBreak := rfl
    have hd : (pb.append x).finishCalls = pb.finishCalls := rfl
    rw [h1, h2, h3, h4, ha, hb, hc, hd]
    refine ⟨by simp, by simp only [List.length_cons]; omega, rfl, rfl⟩

/-- C6: after binding a producer with `init`, a sequence of `append`
calls delivers the values to the producer in exactly the call order and
leaves `len(sink)` equal to the number of calls; a subsequent `close`
raises nothing and runs the bound `_cb_finish` exactly once, provided
the producer terminates (normally, or by letting the cancellation
signal/`GeneratorExit` propagate). -/
theorem push_append_order_close (pb0 : PushBase) (g0 : PushGen)
    (xs : List PVal)
    (hterm : g0.onBreak = ThrowOutcome.breakRaised ∨
      g0.onBreak = ThrowOutcome.stopIteration ∨
      g0.onBreak = ThrowOutcome.generatorExit) :
    (xs.foldl PushBase.append (PushBase.init pb0 g0)).gen.received =
      g0.received ++ xs ∧
    (xs.foldl PushBase.append (PushBase.init pb0 g0)).length = xs.length ∧
    ∃ st2, (xs.foldl PushBase.append (PushBase.init pb0 g0)).close =
      Except.ok st2 ∧ st2.finishCalls = 1 := by
  obtain ⟨h1, h2, h3, h4⟩ :=
    push_foldl_append (PushBase.init pb0 g0) xs
  refine ⟨h1, ?_, ?_⟩
  · rw [h2]
    exact Nat.zero_add _
  · refine ⟨⟨(xs.foldl PushBase.append (PushBase.init pb0 g0)).length,
      (xs.foldl PushBase.append (PushBase.init pb0 g0)).gen,
      (xs.foldl PushBase.append (PushBase.init pb0 g0)).finishCalls + 1⟩,
      ?_, ?_⟩
    · unfold PushBase.close
      have hob : (xs.foldl PushBase.append (PushBase.init pb0 g0)).gen.onBreak
          = g0.onBreak := h3
      rcases hterm with ht | ht | ht <;> rw [hob.trans ht]
    · rw [show (xs.foldl PushBase.append (PushBase.init pb0 g0)).finishCalls
        = 0 from h4]

/-- Witness for C6: three appends on a concretely bound sink, with a
producer that finishes normally on cancellation. -/
theorem push_append_order_close_witness :
    ([PVal.vint 1, PVal.vint 2, PVal.vint 3].foldl PushBase.append
      (PushBase.init ⟨5, ⟨[], ThrowOutcome.otherError "x"⟩, 7⟩
        ⟨[], ThrowOutcome.stopIteration⟩)).gen.received =
      [] ++ [PVal.vint 1, PVal.vint 2, PVal.vint 3] ∧
    ([PVal.vint 1, PVal.vint 2, PVal.vint 3].foldl PushBase.append
      (PushBase.init ⟨5, ⟨[], ThrowOutcome.otherError "x"⟩, 7⟩
        ⟨[], ThrowOutcome.stopIteration⟩)).length =
      [PVal.vint 1, PVal.vint 2, PVal.vint 3].length ∧
    ∃ st2, ([PVal.vint 1, PVal.vint 2, PVal.vint 3].foldl PushBase.append
      (PushBase.init ⟨5, ⟨[], ThrowOutcome.otherError "x"⟩, 7⟩
        ⟨[], ThrowOutcome.stopIteration⟩)).close = Except.ok st2 ∧
      st2.finishCalls = 1 :=
  push_append_order_close _ _ _ (Or.inr (Or.inl rfl))

/-! ### C7: `apply_pssm` -/

/-- C7: a non-null value equal to a key of the map is replaced by the
zero-argument instance of the mapped option class; otherwise a value
that is an instance of one of the map's option classes is returned
unchanged; otherwise `apply_pssm` fails with the specification's
`ConfigurationError` listing the acceptable keys and classes. -/
theorem apply_pssm_normalizes (v : StoreVal) (m : List (StoreVal × OptCls)) :
    (∀ c, svlookup m v = some c →
      apply_pssm (some v) m = Except.ok (some (defaultInstance c))) ∧
    (svlookup m v = none → isinstanceAny v (m.map Prod.snd) = true →
      apply_pssm (some v) m = Except.ok (some v)) ∧
    (svlookup m v = none → isinstanceAny v (m.map Prod.snd) = false →
      apply_pssm (some v) m = Except.error
        (ConfigurationError.invalidStoreAs (m.map Prod.fst)
          (m.map Prod.snd) v)) := by
  refine ⟨?_, ?_, ?_⟩
  · intro c hc
    simp [apply_pssm, hc]
  · intro h1 h2
    simp [apply_pssm, h1, h2]
  · intro h1 h2
    simp [apply_pssm, h1, h2]

/-- Witness for C7: the spec's three worked examples.
`apply_pssm("xml", m)` yields a default `xml()` instance;
`apply_pssm(xml(root_tag="r"), m)` returns the instance unchanged;
`apply_pssm(42, m)` fails with the `ConfigurationError`. -/
theorem apply_pssm_normalizes_witness :
    apply_pssm (some (StoreVal.sstr "xml"))
      [(StoreVal.sstr "xml", OptCls.xmlC)] =
      Except.ok (some (StoreVal.sxml xmlDefault)) ∧
    apply_pssm (some (StoreVal.sxml ⟨some "r", false, false⟩))
      [(StoreVal.sstr "xml", OptCls.xmlC)] =
      Except.ok (some (StoreVal.sxml ⟨some "r", false, false⟩)) ∧
    apply_pssm (some (StoreVal.sint 42))
      [(StoreVal.sstr "xml", OptCls.xmlC)] =
      Except.error (ConfigurationError.invalidStoreAs
        [StoreVal.sstr "xml"] [OptCls.xmlC] (StoreVal.sint 42)) :=
  ⟨(apply_pssm_normalizes _ _).1 OptCls.xmlC (by decide),
   (apply_pssm_normalizes _ _).2.1 (by decide) (by decide),
   (apply_pssm_normalizes _ _).2.2 (by decide) (by decide)⟩

/-! ### C4: the Attribute Merge Map -/

theorem paExpandGroups_cons {α : Type} (k : PAKey) (w : α)
    (t : List (PAKey × α)) (r : List (String × α)) :
    paExpandGroups ((k, w) :: t) r =
      paExpandGroups t
        (match k with
         | PAKey.group gs => gs.foldl (fun r3 s => alinsert r3 s w) r
         | PAKey.ident _ => r) := by
  cases k <;> rfl

theorem paApplyPlain_cons {α : Type} (k : PAKey) (w : α)
    (t : List (PAKey × α)) (r : List (String × α)) :
    paApplyPlain ((k, w) :: t) r =
      paApplyPlain t
        (match k with
         | PAKey.ident s => alinsert r s w
         | PAKey.group _ => r) := by
  cases k <;> rfl

theorem alget_group_fold {α : Type} (gs : List String)
    (r : List (String × α)) (v : α) (s : String) :
    alget (gs.foldl (fun r2 s2 => alinsert r2 s2 v) r) s =
      if s ∈ gs then some v else alget r s := by
  induction gs generalizing r with
  | nil => simp
  | cons g t ih =>
    simp only [List.foldl_cons]
    rw [ih]
    by_cases hs : s ∈ t
    · simp [hs]
    · by_cases hg : g = s
      · subst hg
        simp [hs, alget_alinsert_self]
      · simp [hs, hg, Ne.symm hg, alget_alinsert_ne _ _ _ _ hg]

theorem paExpandGroups_preserve {α : Type} (d : List (PAKey × α))
    (r : List (String × α)) (s : String) (v : α)
    (hval : ∀ gs2 v2, (PAKey.group gs2, v2) ∈ d → s ∈ gs2 → v2 = v)
    (hr : alget r s = some v) :
    alget (paExpandGroups d r) s = some v := by
  induction d generalizing r with
  | nil => exact hr
  | cons kv t ih =>
    obtain ⟨k, w⟩ := kv
    rw [paExpandGroups_cons]
    cases k with
    | ident s2 =>
      exact ih r (fun gs2 v2 hm hs => hval gs2 v2 (List.mem_cons_of_mem _ hm) hs) hr
    | group gs =>
      apply ih _ (fun gs2 v2 hm hs => hval gs2 v2 (List.mem_cons_of_mem _ hm) hs)
      rw [alget_group_fold]
      by_cases hs : s ∈ gs
      · simp only [hs, if_true]
        rw [hval gs w (List.mem_cons_self _ _) hs]
      · simp only [hs, if_false]
        exact hr

theorem paExpandGroups_hit {α : Type} (d : List (PAKey × α))
    (r : List (String × α)) (gs : List String) (v : α) (s : String)
    (hmem : (PAKey.group gs, v) ∈ d) (hs : s ∈ gs)
    (hval : ∀ gs2 v2, (PAKey.group gs2, v2) ∈ d → s ∈ gs2 → v2 = v) :
    alget (paExpandGroups d r) s = some v := by
  induction d generalizing r with
  | nil => cases hmem
  | cons kv t ih =>
    obtain ⟨k, w⟩ := kv
    rw [paExpandGroups_cons]
    have htail : ∀ gs2 v2, (PAKey.group gs2, v2) ∈ t → s ∈ gs2 → v2 = v :=
      fun gs2 v2 hm h2 => hval gs2 v2 (List.mem_cons_of_mem _ hm) h2
    rcases List.mem_cons.1 hmem with heq | hmem'
    · have hk : PAKey.group gs = k := congrArg Prod.fst heq
      have hw : v = w := congrArg Prod.snd heq
      subst hk
      apply paExpandGroups_preserve t _ s v htail
      rw [alget_group_fold]
      simp only [hs, if_true]
      exact congrArg some hw.symm
    · cases k with
      | ident s2 => exact ih _ hmem' htail
      | group gs2 => exact ih _ hmem' htail

theorem paApplyPlain_keep {α : Type} (d : List (PAKey × α))
    (r : List (String × α)) (s : String) (w : α)
    (hval : ∀ w2, (PAKey.ident s, w2) ∈ d → w2 = w)
    (hr : alget r s = some w) :
    alget (paApplyPlain d r) s = some w := by
  induction d generalizing r with
  | nil => exact hr
  | cons kv t ih =>
    obtain ⟨k, w2⟩ := kv
    rw [paApplyPlain_cons]
    have htail : ∀ w3, (PAKey.ident s, w3) ∈ t → w3 = w :=
      fun w3 hm => hval w3 (List.mem_cons_of_mem _ hm)
    cases k with
    | group gs => exact ih _ htail hr
    | ident s2 =>
      apply ih _ htail
      by_cases h2 : s2 = s
      · subst h2
        rw [alget_alinsert_self]
        rw [hval w2 (List.mem_cons_self _ _)]
      · rw [alget_alinsert_ne _ _ _ _ h2]
        exact hr

theorem paApplyPlain_hit {α : Type} (d : List (PAKey × α))
    (r : List (String × α)) (s : String) (w : α)
    (hmem : (PAKey.ident s, w) ∈ d)
    (hval : ∀ w2, (PAKey.ident s, w2) ∈ d → w2 = w) :
    alget (paApplyPlain d r) s = some w := by
  induction d generalizing r with
  | nil => cases hmem
  | cons kv t ih =>
    obtain ⟨k, w2⟩ := kv
    rw [paApplyPlain_cons]
    have htail : ∀ w3, (PAKey.ident s, w3) ∈ t → w3 = w :=
      fun w3 hm => hval w3 (List.mem_cons_of_mem _ hm)
    rcases List.mem_cons.1 hmem with heq | hmem'
    · have hk : PAKey.ident s = k := congrArg Prod.fst heq
      have hw : w = w2 := congrArg Prod.snd heq
      subst hk
      subst hw
      apply paApplyPlain_keep t _ s w htail
      exact alget_alinsert_self r s w
    · cases k with
      | group gs => exact ih _ hmem' htail
      | ident s2 => exact ih _ hmem' htail

theorem paApplyPlain_preserve {α : Type} (d : List (PAKey × α))
    (r : List (String × α)) (s : String)
    (habs : ∀ w, (PAKey.ident s, w) ∉ d) :
    alget (paApplyPlain d r) s = alget r s := by
  induction d generalizing r with
  | nil => rfl
  | cons kv t ih =>
    obtain ⟨k, w⟩ := kv
    rw [paApplyPlain_cons]
    have htail : ∀ w2, (PAKey.ident s, w2) ∉ t :=
      fun w2 hm => habs w2 (List.mem_cons_of_mem _ hm)
    cases k with
    | group gs => exact ih _ htail
    | ident s2 =>
      rw [ih _ htail]
      have h2 : s2 ≠ s := by
        intro hh
        subst hh
        exact habs w (List.mem_cons_self _ _)
      rw [alget_alinsert_ne _ _ _ _ h2]

theorem nodup_keys_val_eq {κ α : Type} (l : List (κ × α))
    (hnd : (l.map Prod.fst).Nodup) (k : κ) (v1 v2 : α)
    (h1 : (k, v1) ∈ l) (h2 : (k, v2) ∈ l) : v1 = v2 := by
  induction l with
  | nil => cases h1
  | cons kv t ih =>
    simp only [List.map_cons, List.nodup_cons] at hnd
    rcases List.mem_cons.1 h1 with he1 | he1 <;>
      rcases List.mem_cons.1 h2 with he2 | he2
    · have := he1.trans he2.symm
      exact congrArg Prod.snd this
    · exfalso
      apply hnd.1
      have hk : kv.1 = k := (congrArg Prod.fst he1).symm
      rw [hk]
      exact List.mem_map_of_mem Prod.fst he2
    · exfalso
      apply hnd.1
      have hk : kv.1 = k := (congrArg Prod.fst he2).symm
      rw [hk]
      exact List.mem_map_of_mem Prod.fst he1
    · exact ih hnd.2 he1 he2

/-- C4 counterexample: for the mapping with the two overlapping grouped
keys `("a","b") -> 1` and `("b","c") -> 2`, the member `"b"` of the
first group (which is not a plain key) is bound to `2`, not to that
group's value `1`; so the claim's grouped-key clause fails as stated. -/
theorem decode_pa_dict_overlap_counterexample :
    (PAKey.group ["a", "b"], (1 : Int)) ∈ paOverlap ∧
    "b" ∈ ["a", "b"] ∧
    (∀ w : Int, (PAKey.ident "b", w) ∉ paOverlap) ∧
    alget (_decode_pa_dict paOverlap) "b" = some 2 ∧
    ¬ C4GroupClause paOverlap := by
  have habs : ∀ w : Int, (PAKey.ident "b", w) ∉ paOverlap := by
    intro w
    simp [paOverlap]
  refine ⟨by decide, by decide, habs, by decide, ?_⟩
  intro hc
  have h1 := hc ["a", "b"] 1 "b" (by decide) (by decide) habs
  have h2 : alget (_decode_pa_dict paOverlap) "b" = some 2 := by decide
  rw [h1] at h2
  exact absurd h2 (by decide)

/-- C4 amended: when the grouped keys are pairwise disjoint (no
identifier belongs to two different grouped keys), `_decode_pa_dict`
binds every member of each grouped key to that group's value, plain
keys overwrite group expansions, and the spec's worked example gives
`a -> 2`, `b -> 1`.  (With overlapping groups, the group processed last
wins, as the counterexample shows.) -/
theorem decode_pa_dict_amended (d : List (PAKey × Int))
    (hnd : (d.map Prod.fst).Nodup)
    (hdisj : ∀ gs1 v1 gs2 v2 s, (PAKey.group gs1, v1) ∈ d →
      (PAKey.group gs2, v2) ∈ d → s ∈ gs1 → s ∈ gs2 → gs1 = gs2) :
    (∀ gs v s, (PAKey.group gs, v) ∈ d → s ∈ gs →
      (∀ w, (PAKey.ident s, w) ∉ d) →
      alget (_decode_pa_dict d) s = some v) ∧
    (∀ s w, (PAKey.ident s, w) ∈ d →
      alget (_decode_pa_dict d) s = some w) ∧
    alget (_decode_pa_dict paExample) "a" = some 2 ∧
    alget (_decode_pa_dict paExample) "b" = some 1 := by
  refine ⟨?_, ?_, by decide, by decide⟩
  · intro gs v s hmem hs habs
    unfold _decode_pa_dict
    rw [paApplyPlain_preserve _ _ _ habs]
    apply paExpandGroups_hit _ _ _ _ _ hmem hs
    intro gs2 v2 hm2 hs2
    have hg := hdisj gs2 v2 gs v s hm2 hmem hs2 hs
    subst hg
    exact nodup_keys_val_eq d hnd _ v2 v hm2 hmem
  · intro s w hmem
    unfold _decode_pa_dict
    exact paApplyPlain_hit _ _ _ _ hmem
      (fun w2 h2 => nodup_keys_val_eq d hnd _ w2 w h2 hmem)

/-- Witness for C4 (amended) at the spec's worked example: the plain key
`"a"` overwrites the group expansion and `"b"` keeps the group value. -/
theorem decode_pa_dict_amended_witness :
    alget (_decode_pa_dict paExample) "a" = some 2 ∧
    alget (_decode_pa_dict paExample) "b" = some 1 :=
  (decode_pa_dict_amended paExample (by decide)
    (by
      intro gs1 v1 gs2 v2 s h1 h2 hs1 hs2
      simp only [paExample, List.mem_cons, List.mem_singleton] at h1 h2
      rcases h1 with h1 | h1 <;> rcases h2 with h2 | h2 <;>
        simp_all)).2.2

/-! ### C5 and C10: namespace resolution -/

theorem resolve_namespace_mem {n : Nat} (g : NsGraph n) (dns : Option String)
    (i : Fin n) (st : Fin n → PyNs) (tags : Finset (Fin n)) (hmem : i ∈ tags) :
    resolve_namespace g dns i st tags = Except.ok (false, st, tags, []) := by
  rw [resolve_namespace.eq_def]
  exact dif_pos hmem

theorem resolve_namespace_raise {n : Nat} (g : NsGraph n) (dns : Option String)
    (i : Fin n) (st : Fin n → PyNs) (tags : Finset (Fin n)) (hmem : i ∉ tags)
    (hval : nsNoneOrEmpty (resolveNsValue g dns i (st i)) = true) :
    resolve_namespace g dns i st tags = Except.error i := by
  rw [resolve_namespace.eq_def, dif_neg hmem]
  exact dif_pos hval

theorem resolve_namespace_step {n : Nat} (g : NsGraph n) (dns : Option String)
    (i : Fin n) (st : Fin n → PyNs) (tags : Finset (Fin n)) (hmem : i ∉ tags)
    (hval : nsNoneOrEmpty (resolveNsValue g dns i (st i)) = false) :
    resolve_namespace g dns i st tags =
      (match g.ext i with
       | none => Except.ok (true,
           fun j => if j = i then resolveNsValue g dns i (st i) else st j,
           insert i tags, [i])
       | some j =>
         match resolve_namespace g dns j
             (fun j2 => if j2 = i then resolveNsValue g dns i (st i) else st j2)
             (insert i tags) with
         | Except.error e => Except.error e
         | Except.ok (_, st3, tags3, tr) =>
           Except.ok (true, st3, tags3, i :: tr)) := by
  rw [resolve_namespace.eq_def, dif_neg hmem, dif_neg (by simp [hval])]

theorem resolve_namespace_invariant_aux {n : Nat} (g : NsGraph n)
    (dns : Option String) :
    ∀ (m : Nat) (i : Fin n) (st : Fin n → PyNs) (tags : Finset (Fin n)),
      n - tags.card ≤ m →
      ∀ b st2 tags2 tr,
        resolve_namespace g dns i st tags = Except.ok (b, st2, tags2, tr) →
        tr.Nodup ∧ (∀ x ∈ tr, x ∉ tags) ∧ tags ⊆ tags2 ∧
        (∀ x ∈ tags, st2 x = st x) := by
  intro m
  induction m with
  | zero =>
    intro i st tags hle b st2 tags2 tr h
    have hcard : n ≤ tags.card := Nat.sub_eq_zero_iff_le.mp (Nat.le_zero.mp hle)
    have huniv : tags = Finset.univ := by
      apply Finset.eq_univ_of_card
      have := Finset.card_le_univ tags
      simp only [Finset.card_univ, Fintype.card_fin] at this ⊢
      omega
    have hmem : i ∈ tags := huniv ▸ Finset.mem_univ i
    rw [resolve_namespace_mem g dns i st tags hmem] at h
    simp only [Except.ok.injEq, Prod.mk.injEq] at h
    obtain ⟨hb, hst, htg, htr⟩ := h
    subst hst htg htr
    exact ⟨List.nodup_nil, by simp, Finset.Subset.refl _, fun x _ => rfl⟩
  | succ m ih =>
    intro i st tags hle b st2 tags2 tr h
    by_cases hmem : i ∈ tags
    · rw [resolve_namespace_mem g dns i st tags hmem] at h
      simp only [Except.ok.injEq, Prod.mk.injEq] at h
      obtain ⟨hb, hst, htg, htr⟩ := h
      subst hst htg htr
      exact ⟨List.nodup_nil, by simp, Finset.Subset.refl _, fun x _ => rfl⟩
    · by_cases hval : nsNoneOrEmpty (resolveNsValue g dns i (st i)) = true
      · rw [resolve_namespace_raise g dns i st tags hmem hval] at h
        simp at h
      · rw [resolve_namespace_step g dns i st tags hmem
          (Bool.not_eq_true _ ▸ hval)] at h
        rcases hext : g.ext i with _ | j
        · rw [hext] at h
          simp only [Except.ok.injEq, Prod.mk.injEq] at h
          obtain ⟨hb, hst, htg, htr⟩ := h
          subst hst htg htr
          refine ⟨List.nodup_singleton i, ?_, ?_, ?_⟩
          · intro x hx
            rw [List.mem_singleton] at hx
            subst hx
            exact hmem
          · exact Finset.subset_insert i tags
          · intro x hx
            have hne : x ≠ i := fun he => hmem (he ▸ hx)
            simp [hne]
        · rw [hext] at h
          replace h : (match resolve_namespace g dns j
              (fun j2 => if j2 = i then resolveNsValue g dns i (st i) else st j2)
              (insert i tags) with
            | Except.error e => Except.error e
            | Except.ok (_, st3, tags3, tr) =>
              Except.ok (true, st3, tags3, i :: tr)) =
              Except.ok (b, st2, tags2, tr) := h
          rcases hrec : resolve_namespace g dns j
              (fun j2 => if j2 = i then resolveNsValue g dns i (st i) else st j2)
              (insert i tags) with e | res
          · rw [hrec] at h
            simp at h
          · obtain ⟨b3, st3, tags3, tr3⟩ := res
            rw [hrec] at h
            simp only [Except.ok.injEq, Prod.mk.injEq] at h
            obtain ⟨hb, hst, htg, htr⟩ := h
            subst hst htg htr
            have hle2 : n - (insert i tags).card ≤ m := by
              have h1 : (insert i tags).card = tags.card + 1 :=
                Finset.card_insert_of_not_mem hmem
              omega
            obtain ⟨ha1, ha2, ha3, ha4⟩ :=
              ih j _ (insert i tags) hle2 b3 st3 tags3 tr3 hrec
            refine ⟨?_, ?_, ?_, ?_⟩
            · refine List.nodup_cons.mpr ⟨?_, ha1⟩
              intro hi
              exact (ha2 i hi) (Finset.mem_insert_self i tags)
            · intro x hx
              rcases List.mem_cons.1 hx with hx | hx
              · subst hx
                exact hmem
              · intro hxt
                exact (ha2 x hx) (Finset.mem_insert_of_mem hxt)
            · exact (Finset.subset_insert i tags).trans ha3
            · intro x hx
              have hne : x ≠ i := fun he => hmem (he ▸ hx)
              have := ha4 x (Finset.mem_insert_of_mem hx)
              simpa [hne] using this

theorem pyOfDns_ne_sentinel (d : Option String) : pyOfDns d ≠ PyNs.sentinel := by
  cases d <;> simp [pyOfDns]

theorem ite_ne_sentinel (c : Prop) [Decidable c] (a b : PyNs)
    (ha : c → a ≠ PyNs.sentinel) (hb : ¬c → b ≠ PyNs.sentinel) :
    (if c then a else b) ≠ PyNs.sentinel := by
  by_cases h : c
  · simpa [h] using ha h
  · simpa [h] using hb h

theorem resolveNsValue_ne_sentinel {n : Nat} (g : NsGraph n) (dns : Option String)
    (i : Fin n) (ns0 : PyNs) : resolveNsValue g dns i ns0 ≠ PyNs.sentinel := by
  unfold resolveNsValue
  apply ite_ne_sentinel _ _ _ (fun _ => pyOfDns_ne_sentinel dns)
  intro h4
  apply ite_ne_sentinel _ _ _ (fun _ => by simp)
  intro h3
  apply ite_ne_sentinel _ _ _ (fun _ => pyOfDns_ne_sentinel dns)
  intro h2
  apply ite_ne_sentinel _ _ _ (fun _ => pyOfDns_ne_sentinel dns)
  intro h1
  exact h1

theorem pyns_nonempty_shape (v : PyNs) (hne : v ≠ PyNs.sentinel)
    (h : nsNoneOrEmpty v = false) : ∃ s, v = PyNs.pystr s ∧ s ≠ "" := by
  cases v with
  | pynone => simp [nsNoneOrEmpty] at h
  | sentinel => exact absurd rfl hne
  | pystr s =>
    refine ⟨s, rfl, ?_⟩
    intro he
    rw [he] at h
    exact absurd h (by decide)

theorem nsNoneOrEmpty_fallback (s : String) (hs : s ≠ "") (v : PyNs) :
    nsNoneOrEmpty (if nsNoneOrEmpty v then pyOfDns (some s) else v) = false := by
  by_cases h : nsNoneOrEmpty v = true
  · rw [if_pos h]
    show s.isEmpty = false
    exact Bool.eq_false_iff.mpr (fun hh => hs ((String.isEmpty_iff s).mp hh))
  · rw [if_neg h]
    exact Bool.eq_false_iff.mpr h

theorem resolveNsValue_some_ok {n : Nat} (g : NsGraph n) (s : String)
    (hs : s ≠ "") (i : Fin n) (ns0 : PyNs) :
    nsNoneOrEmpty (resolveNsValue g (some s) i ns0) = false := by
  unfold resolveNsValue
  exact nsNoneOrEmpty_fallback s hs _

theorem resolve_namespace_no_raise_aux {n : Nat} (g : NsGraph n) (s : String)
    (hs : s ≠ "") :
    ∀ (m : Nat) (i : Fin n) (st : Fin n → PyNs) (tags : Finset (Fin n)),
      n - tags.card ≤ m →
      ∃ out, resolve_namespace g (some s) i st tags = Except.ok out := by
  intro m
  induction m with
  | zero =>
    intro i st tags hle
    have hcard : n ≤ tags.card := Nat.sub_eq_zero_iff_le.mp (Nat.le_zero.mp hle)
    have huniv : tags = Finset.univ := by
      apply Finset.eq_univ_of_card
      have := Finset.card_le_univ tags
      simp only [Finset.card_univ, Fintype.card_fin] at this ⊢
      omega
    have hmem : i ∈ tags := huniv ▸ Finset.mem_univ i
    exact ⟨_, resolve_namespace_mem g (some s) i st tags hmem⟩
  | succ m ih =>
    intro i st tags hle
    by_cases hmem : i ∈ tags
    · exact ⟨_, resolve_namespace_mem g (some s) i st tags hmem⟩
    · have hval := resolveNsValue_some_ok g s hs i (st i)
      rw [resolve_namespace_step g (some s) i st tags hmem hval]
      rcases hext : g.ext i with _ | j
      · exact ⟨_, rfl⟩
      · show ∃ out, (match resolve_namespace g (some s) j
            (fun j2 => if j2 = i then resolveNsValue g (some s) i (st i) else st j2)
            (insert i tags) with
          | Except.error e => Except.error e
          | Except.ok (_, st3, tags3, tr) =>
            Except.ok (true, st3, tags3, i :: tr)) = Except.ok out
        have hle2 : n - (insert i tags).card ≤ m := by
          have h1 : (insert i tags).card = tags.card + 1 :=
            Finset.card_insert_of_not_mem hmem
          omega
        obtain ⟨out, hout⟩ := ih j
          (fun j2 => if j2 = i then resolveNsValue g (some s) i (st i) else st j2)
          (insert i tags) hle2
        obtain ⟨b3, st3, tags3, tr3⟩ := out
        rw [hout]
        exact ⟨_, rfl⟩

theorem resolve_namespace_ret_true {n : Nat} (g : NsGraph n) (dns : Option String)
    (i : Fin n) (st : Fin n → PyNs) (tags : Finset (Fin n)) (hmem : i ∉ tags)
    (b : Bool) (st2 : Fin n → PyNs) (tags2 : Finset (Fin n)) (tr : List (Fin n))
    (h : resolve_namespace g dns i st tags = Except.ok (b, st2, tags2, tr)) :
    b = true := by
  by_cases hval : nsNoneOrEmpty (resolveNsValue g dns i (st i)) = true
  · rw [resolve_namespace_raise g dns i st tags hmem hval] at h
    simp at h
  · rw [resolve_namespace_step g dns i st tags hmem (Bool.not_eq_true _ ▸ hval)] at h
    rcases hext : g.ext i with _ | j
    · rw [hext] at h
      simp only [Except.ok.injEq, Prod.mk.injEq] at h
      exact h.1.symm
    · rw [hext] at h
      replace h : (match resolve_namespace g dns j
          (fun j2 => if j2 = i then resolveNsValue g dns i (st i) else st j2)
          (insert i tags) with
        | Except.error e => Except.error e
        | Except.ok (_, st3, tags3, tr) =>
          Except.ok (true, st3, tags3, i :: tr)) =
          Except.ok (b, st2, tags2, tr) := h
      rcases hrec : resolve_namespace g dns j
          (fun j2 => if j2 = i then resolveNsValue g dns i (st i) else st j2)
          (insert i tags) with e | res
      · rw [hrec] at h
        simp at h
      · obtain ⟨b3, st3, tags3, tr3⟩ := res
        rw [hrec] at h
        simp only [Except.ok.injEq, Prod.mk.injEq] at h
        exact h.1.symm

/-- C5 (amended): `resolve_namespace` always terminates and touches each
descriptor at most once per call (the trace of processed descriptors has
no duplicates), returning false exactly when the descriptor was already
visited in the same call; a cycle in the extends chain never causes
non-termination, and when `default_ns` is a non-empty string the call
never raises.  (A descriptor whose namespace cannot be resolved still
raises `ValueError`, even in a cyclic graph — see the counterexample.) -/
theorem resolve_namespace_cycle_safe {n : Nat} (g : NsGraph n)
    (dns : Option String) (i : Fin n) (st : Fin n → PyNs)
    (tags : Finset (Fin n)) :
    (i ∈ tags →
      resolve_namespace g dns i st tags = Except.ok (false, st, tags, [])) ∧
    (∀ b st2 tags2 tr,
      resolve_namespace g dns i st tags = Except.ok (b, st2, tags2, tr) →
      tr.Nodup ∧ (b = false ↔ i ∈ tags)) ∧
    (∀ s, dns = some s → s ≠ "" →
      ∃ out, resolve_namespace g dns i st tags = Except.ok out) := by
  refine ⟨fun hmem => resolve_namespace_mem g dns i st tags hmem, ?_, ?_⟩
  · intro b st2 tags2 tr h
    obtain ⟨h1, h2, h3, h4⟩ := resolve_namespace_invariant_aux g dns
      (n - tags.card) i st tags le_rfl b st2 tags2 tr h
    refine ⟨h1, ?_, ?_⟩
    · intro hb
      by_contra hmem
      have hbt := resolve_namespace_ret_true g dns i st tags hmem b st2 tags2 tr h
      rw [hbt] at hb
      exact absurd hb (by decide)
    · intro hmem
      rw [resolve_namespace_mem g dns i st tags hmem] at h
      simp only [Except.ok.injEq, Prod.mk.injEq] at h
      exact h.1.symm
  · intro s hdns hs
    subst hdns
    exact resolve_namespace_no_raise_aux g s hs (n - tags.card) i st tags le_rfl

/-- C5 counterexample: on a descriptor whose extends chain is a
self-cycle but whose namespace is unresolvable (`default_ns` absent and
a module path starting with `_`), `resolve_namespace` raises the
`ValueError` of line 341, so "terminates without raising" is false as
stated. -/
theorem resolve_namespace_cycle_raises :
    cycleG.ext 0 = some 0 ∧
    resolve_namespace cycleG none 0 cycleSt ∅ = Except.error 0 := by
  refine ⟨rfl, ?_⟩
  exact resolve_namespace_raise cycleG none 0 cycleSt ∅
    (Finset.not_mem_empty 0) (by decide)

/-- Witness for C5 (amended) on the concrete one-descriptor cycle with a
non-empty `default_ns`. -/
theorem resolve_namespace_cycle_safe_witness :
    ∃ out, resolve_namespace cycleG (some "urn:example") 0 cycleSt ∅ =
      Except.ok out :=
  (resolve_namespace_cycle_safe cycleG (some "urn:example") 0 cycleSt ∅).2.2
    "urn:example" rfl (by decide)

/-- C10: whenever a top-level `resolve_namespace` call (fresh visited
set) returns rather than raising, the descriptor's `__namespace__` is
afterwards a non-empty string: the sentinel and the null/empty states
have been replaced by `default_ns` or by a module-path-derived
namespace, or the `ValueError` was raised. -/
theorem resolve_namespace_assigns_nonempty {n : Nat} (g : NsGraph n)
    (dns : Option String) (i : Fin n) (st : Fin n → PyNs) (b : Bool)
    (st2 : Fin n → PyNs) (tags2 : Finset (Fin n)) (tr : List (Fin n))
    (h : resolve_namespace g dns i st ∅ = Except.ok (b, st2, tags2, tr)) :
    ∃ s, st2 i = PyNs.pystr s ∧ s ≠ "" := by
  have hmem : i ∉ (∅ : Finset (Fin n)) := Finset.not_mem_empty i
  by_cases hval : nsNoneOrEmpty (resolveNsValue g dns i (st i)) = true
  · rw [resolve_namespace_raise g dns i st ∅ hmem hval] at h
    simp at h
  · have hval2 : nsNoneOrEmpty (resolveNsValue g dns i (st i)) = false :=
      Bool.eq_false_iff.mpr hval
    obtain ⟨s, hshape, hs⟩ := pyns_nonempty_shape _
      (resolveNsValue_ne_sentinel g dns i (st i)) hval2
    rw [resolve_namespace_step g dns i st ∅ hmem hval2] at h
    rcases hext : g.ext i with _ | j
    · rw [hext] at h
      simp only [Except.ok.injEq, Prod.mk.injEq] at h
      obtain ⟨hb, hst, htg, htr⟩ := h
      refine ⟨s, ?_, hs⟩
      rw [← hst]
      simp [hshape]
    · rw [hext] at h
      replace h : (match resolve_namespace g dns j
          (fun j2 => if j2 = i then resolveNsValue g dns i (st i) else st j2)
          (insert i (∅ : Finset (Fin n))) with
        | Except.error e => Except.error e
        | Except.ok (_, st3, tags3, tr) =>
          Except.ok (true, st3, tags3, i :: tr)) =
          Except.ok (b, st2, tags2, tr) := h
      rcases hrec : resolve_namespace g dns j
          (fun j2 => if j2 = i then resolveNsValue g dns i (st i) else st j2)
          (insert i (∅ : Finset (Fin n))) with e | res
      · rw [hrec] at h
        simp at h
      · obtain ⟨b3, st3, tags3, tr3⟩ := res
        rw [hrec] at h
        simp only [Except.ok.injEq, Prod.mk.injEq] at h
        obtain ⟨hb, hst, htg, htr⟩ := h
        obtain ⟨ha1, ha2, ha3, ha4⟩ := resolve_namespace_invariant_aux g dns
          (n - (insert i (∅ : Finset (Fin n))).card) j _ (insert i ∅) le_rfl
          b3 st3 tags3 tr3 hrec
        have hsti := ha4 i (Finset.mem_insert_self i ∅)
        refine ⟨s, ?_, hs⟩
        rw [← hst, hsti]
        simp [hshape]

/-- Witness for C10 on the concrete one-descriptor cycle. -/
theorem resolve_namespace_assigns_nonempty_witness :
    ∃ s, (fun j => if j = (0 : Fin 1)
        then resolveNsValue cycleG (some "tns") 0 (cycleSt 0)
        else cycleSt j) 0 = PyNs.pystr s ∧ s ≠ "" := by
  refine resolve_namespace_assigns_nonempty cycleG (some "tns") 0 cycleSt true
    (fun j => if j = (0 : Fin 1)
      then resolveNsValue cycleG (some "tns") 0 (cycleSt 0)
      else cycleSt j) (insert 0 ∅) [0] ?_
  have hmem : (0 : Fin 1) ∉ (∅ : Finset (Fin 1)) := Finset.not_mem_empty 0
  have hval2 : nsNoneOrEmpty
      (resolveNsValue cycleG (some "tns") 0 (cycleSt 0)) = false := by decide
  rw [resolve_namespace_step cycleG (some "tns") 0 cycleSt ∅ hmem hval2]
  simp only [cycleG]
  rw [resolve_namespace_mem _ _ _ _ _ (Finset.mem_insert_self 0 ∅)]

/-! ### C1 and C3: heap lemmas -/

theorem halloc_len (h : Heap) (c : PyCls) : (halloc h c).len = h.len + 1 := rfl

theorem hSetattr_len (h : Heap) (i : Nat) (k : String) (v : PVal) :
    (hSetattr h i k v).len = h.len := rfl

theorem halloc_get_ne (h : Heap) (c : PyCls) (j : Nat) (hne : j ≠ h.len) :
    (halloc h c).get j = h.get j := by
  simp [halloc, hne]

theorem halloc_get_eq_len (h : Heap) (c : PyCls) (j : Nat) (hj : j = h.len) :
    (halloc h c).get j = c := by
  subst hj
  simp [halloc]

theorem hSetattr_get_ne (h : Heap) (i : Nat) (k : String) (v : PVal) (j : Nat)
    (hne : j ≠ i) : (hSetattr h i k v).get j = h.get j := by
  simp [hSetattr, hne]

theorem hSetattr_get_self (h : Heap) (i : Nat) (k : String) (v : PVal) :
    (hSetattr h i k v).get i = ⟨alinsert (h.get i).dict k v, (h.get i).mro⟩ := by
  simp [hSetattr]

theorem ite_setattr_len (c : Prop) [Decidable c] (x : Heap) (i : Nat)
    (k : String) (v : PVal) :
    (if c then hSetattr x i k v else x).len = x.len := by
  by_cases hc : c <;> simp [hc, hSetattr]

theorem ite_setattr_get_ne (c : Prop) [Decidable c] (x : Heap) (i : Nat)
    (k : String) (v : PVal) (j : Nat) (hne : j ≠ i) :
    (if c then hSetattr x i k v else x).get j = x.get j := by
  by_cases hc : c <;> simp [hc, hSetattr_get_ne _ _ _ _ _ hne]

theorem ite_setattr_get_dict (c : Prop) [Decidable c] (x : Heap) (i : Nat)
    (k : String) (v : PVal) :
    ((if c then hSetattr x i k v else x).get i).dict =
      (if c then alinsert ((x.get i).dict) k v else (x.get i).dict) := by
  by_cases hc : c <;> simp [hc, hSetattr]

theorem ite_setattr_get_mro (c : Prop) [Decidable c] (x : Heap) (i : Nat)
    (k : String) (v : PVal) (j : Nat) :
    ((if c then hSetattr x i k v else x).get j).mro = (x.get j).mro := by
  by_cases hc : c
  · by_cases hj : j = i <;> simp [hc, hj, hSetattr]
  · simp [hc]

theorem alget_ite_alinsert_ne (c : Prop) [Decidable c]
    (D : Dict) (kk k : String) (v : PVal) (hne : kk ≠ k) :
    alget (if c then alinsert D kk v else D) k = alget D k := by
  by_cases hc : c <;> simp [hc, alget_alinsert_ne _ _ _ _ hne]

theorem ite_setattr_dalloc_len (c : Prop) [Decidable c] (x : Heap) (d : Dict)
    (i : Nat) (k : String) (v : PVal) :
    (if c then hSetattr (hDictAlloc x d) i k v else x).len = x.len := by
  by_cases hc : c <;> simp [hc, hSetattr, hDictAlloc]

theorem ite_setattr_dalloc_get_ne (c : Prop) [Decidable c] (x : Heap)
    (d : Dict) (i : Nat) (k : String) (v : PVal) (j : Nat) (hne : j ≠ i) :
    (if c then hSetattr (hDictAlloc x d) i k v else x).get j = x.get j := by
  by_cases hc : c <;> simp [hc, hSetattr, hDictAlloc, hne]

theorem ite_setattr_dalloc_get_dict (c : Prop) [Decidable c] (x : Heap)
    (d : Dict) (i : Nat) (k : String) (v : PVal) :
    ((if c then hSetattr (hDictAlloc x d) i k v else x).get i).dict =
      (if c then alinsert ((x.get i).dict) k v else (x.get i).dict) := by
  by_cases hc : c <;> simp [hc, hSetattr, hDictAlloc]

theorem ite_setattr_dalloc_get_mro (c : Prop) [Decidable c] (x : Heap)
    (d : Dict) (i : Nat) (k : String) (v : PVal) (j : Nat) :
    ((if c then hSetattr (hDictAlloc x d) i k v else x).get j).mro =
      (x.get j).mro := by
  by_cases hc : c
  · by_cases hj : j = i <;> simp [hc, hj, hSetattr, hDictAlloc]
  · simp [hc]

theorem customizeAttrsCls_len (dflt : Bool) (h : Heap) (aPar : Nat) :
    (customizeAttrsCls dflt h aPar).len = h.len + 1 := by
  unfold customizeAttrsCls
  rw [hSetattr_len, ite_setattr_dalloc_len, ite_setattr_len, ite_setattr_len,
    halloc_len]

theorem customizeAttrsCls_get_ne (dflt : Bool) (h : Heap) (aPar : Nat)
    (j : Nat) (hne : j ≠ h.len) :
    (customizeAttrsCls dflt h aPar).get j = h.get j := by
  unfold customizeAttrsCls
  rw [hSetattr_get_ne _ _ _ _ _ hne,
    ite_setattr_dalloc_get_ne _ _ _ _ _ _ _ hne,
    ite_setattr_get_ne _ _ _ _ _ _ hne, ite_setattr_get_ne _ _ _ _ _ _ hne,
    halloc_get_ne _ _ _ hne]

theorem hSetattr_get_mro (x : Heap) (i : Nat) (k : String) (v : PVal)
    (j : Nat) : ((hSetattr x i k v).get j).mro = (x.get j).mro := by
  by_cases hj : j = i
  · subst hj
    simp [hSetattr]
  · simp [hSetattr, hj]

theorem customizeAttrsCls_mro (dflt : Bool) (h : Heap) (aPar : Nat) :
    ((customizeAttrsCls dflt h aPar).get h.len).mro =
      h.len :: (h.get aPar).mro := by
  unfold customizeAttrsCls
  rw [hSetattr_get_mro, ite_setattr_dalloc_get_mro, ite_setattr_get_mro,
    ite_setattr_get_mro]
  rw [halloc_get_eq_len _ _ _ rfl]

theorem hSetattr_get_dict (x : Heap) (i : Nat) (k : String) (v : PVal) :
    ((hSetattr x i k v).get i).dict = alinsert ((x.get i).dict) k v := by
  simp [hSetattr]

theorem customizeAttrsCls_dict_other (dflt : Bool) (h : Heap) (aPar : Nat)
    (k : String) (h1 : "sqla_mapper_args" ≠ k) (h2 : "_nullable" ≠ k)
    (h3 : "translations" ≠ k) (h4 : "sqla_column_args" ≠ k) :
    alget ((customizeAttrsCls dflt h aPar).get h.len).dict k = none := by
  unfold customizeAttrsCls
  rw [hSetattr_get_dict, alget_alinsert_ne _ _ _ _ h2,
    ite_setattr_dalloc_get_dict, alget_ite_alinsert_ne _ _ _ _ _ h4,
    ite_setattr_get_dict, alget_ite_alinsert_ne _ _ _ _ _ h3,
    ite_setattr_get_dict, alget_ite_alinsert_ne _ _ _ _ _ h2,
    halloc_get_eq_len _ _ _ rfl]
  simp [alget, h1]

theorem customizeAttrsCls_dict_nullable (dflt : Bool) (h : Heap) (aPar : Nat) :
    alget ((customizeAttrsCls dflt h aPar).get h.len).dict "_nullable" =
      some (PVal.vbool (get_nillable dflt (nullableSlotOf h aPar))) := by
  unfold customizeAttrsCls
  rw [hSetattr_get_dict]
  exact alget_alinsert_self _ _ _

theorem applyKw1_len (h : Heap) (a b : Nat) (k : String) (v : PVal) :
    (applyKw1 h a b k v).len = h.len := by
  unfold applyKw1
  repeat' split
  all_goals rfl

theorem applyKw1_get_ne (h : Heap) (a b : Nat) (k : String) (v : PVal)
    (j : Nat) (hne1 : j ≠ a) (hne2 : j ≠ b) :
    (applyKw1 h a b k v).get j = h.get j := by
  unfold applyKw1
  repeat' split
  all_goals first
    | rfl
    | exact hSetattr_get_ne _ _ _ _ _ hne1
    | exact hSetattr_get_ne _ _ _ _ _ hne2

theorem applyKwargs_len (h : Heap) (a b : Nat) (ks : List (String × PVal)) :
    (applyKwargs h a b ks).len = h.len := by
  induction ks generalizing h with
  | nil => rfl
  | cons kv t ih =>
    exact (ih (applyKw1 h a b kv.1 kv.2)).trans (applyKw1_len h a b kv.1 kv.2)

theorem applyKwargs_get_ne (h : Heap) (a b : Nat) (ks : List (String × PVal))
    (j : Nat) (hne1 : j ≠ a) (hne2 : j ≠ b) :
    (applyKwargs h a b ks).get j = h.get j := by
  induction ks generalizing h with
  | nil => rfl
  | cons kv t ih =>
    exact (ih (applyKw1 h a b kv.1 kv.2)).trans
      (applyKw1_get_ne h a b kv.1 kv.2 j hne1 hne2)

theorem customize_len (dflt : Bool) (h : Heap) (c : Nat)
    (ks : List (String × PVal)) :
    (customize dflt h c ks).1.len = h.len + 3 := by
  unfold customize
  rw [halloc_len, applyKwargs_len, halloc_len, customizeAttrsCls_len]

theorem customize_snd (dflt : Bool) (h : Heap) (c : Nat)
    (ks : List (String × PVal)) :
    (customize dflt h c ks).2 = h.len + 2 := rfl

theorem customize_get_old (dflt : Bool) (h : Heap) (c : Nat)
    (ks : List (String × PVal)) (j : Nat) (hlt : j < h.len) :
    (customize dflt h c ks).1.get j = h.get j := by
  unfold customize
  rw [halloc_get_ne _ _ _
      (by rw [applyKwargs_len, halloc_len, customizeAttrsCls_len]; omega),
    applyKwargs_get_ne _ _ _ _ _ (by omega) (by omega),
    halloc_get_ne _ _ _ (by rw [customizeAttrsCls_len]; omega),
    customizeAttrsCls_get_ne _ _ _ _ (by omega)]

theorem customize_attrs_get (dflt : Bool) (h : Heap) (c : Nat)
    (ks : List (String × PVal)) :
    (customize dflt h c ks).1.get h.len =
      (applyKwargs (halloc (customizeAttrsCls dflt h (attrsIdOf h c))
        ⟨[], (h.len + 1) :: (h.get (annIdOf h c)).mro⟩)
        h.len (h.len + 1) ks).get h.len := by
  unfold customize
  exact halloc_get_ne _ _ _
    (by rw [applyKwargs_len, halloc_len, customizeAttrsCls_len]; omega)

theorem customize_cls_get (dflt : Bool) (h : Heap) (c : Nat)
    (ks : List (String × PVal)) :
    (customize dflt h c ks).1.get (h.len + 2) =
      ⟨[("__module__", (hGetattr h c "__module__").getD PVal.vnone)]
        ++ (if pvIsNone (hGetattr h c "__orig__")
            then [("__orig__", PVal.vclsRef c)] else [])
        ++ [("Attributes", PVal.vclsRef h.len),
            ("Annotations", PVal.vclsRef (h.len + 1))],
       (h.len + 2) :: (h.get c).mro⟩ := by
  unfold customize
  exact halloc_get_eq_len _ _ _
    (by rw [applyKwargs_len, halloc_len, customizeAttrsCls_len])

theorem customize_attrsId (dflt : Bool) (h : Heap) (c : Nat)
    (ks : List (String × PVal)) :
    attrsIdOf (customize dflt h c ks).1 (customize dflt h c ks).2 = h.len := by
  rw [customize_snd]
  unfold attrsIdOf hGetattr
  rw [customize_cls_get]
  by_cases horig : pvIsNone (hGetattr h c "__orig__") = true <;>
    simp [horig, mroLookup, customize_cls_get, alget]

theorem mroLookup_congr (h1 h2 : Heap) (mro : List Nat) (k : String)
    (hag : ∀ x ∈ mro, h2.get x = h1.get x) :
    mroLookup h2 mro k = mroLookup h1 mro k := by
  induction mro with
  | nil => rfl
  | cons x t ih =>
    simp only [mroLookup]
    rw [hag x (List.mem_cons_self x t),
      ih (fun y hy => hag y (List.mem_cons_of_mem _ hy))]

theorem hGetattr_pres (h h2 : Heap) (i : Nat) (k : String)
    (hwf : HeapWF h) (hlt : i < h.len)
    (hpres : ∀ x, x < h.len → h2.get x = h.get x) :
    hGetattr h2 i k = hGetattr h i k := by
  unfold hGetattr
  rw [hpres i hlt]
  exact mroLookup_congr h h2 _ k (fun x hx => hpres x (hwf i hlt x hx))

/-- C1 counterexample: the call can mutate state observable through
`D`'s `Attributes`.  Customize `ModelBase` once (its descriptor is class
5 of the resulting heap, its fresh `Attributes` class 3 owning the
reinitialized `sqla_column_args` bundle), then customize that descriptor
with `pk=True`: lines 423-424 do not reinitialize the bundle (the
parent's is no longer `None`), so line 444 mutates the inherited
keyword dict in place, and reading `sqla_column_args` on the *parent's*
`Attributes` now observes `primary_key=True` — refuting "setting any
constraint field ... leaves every field of D's Attributes unchanged;
the call never mutates D itself" as a blanket statement. -/
theorem customize_pk_mutates_parent_bundle :
    hGetattr (customize true baseHeap 2 []).1 (customize true baseHeap 2 []).2
      "Attributes" = some (PVal.vclsRef 3) ∧
    sqlaBundleOf (customize true baseHeap 2 []).1 3 = some ([], []) ∧
    sqlaBundleOf (customize true (customize true baseHeap 2 []).1
        (customize true baseHeap 2 []).2 [("pk", PVal.vbool true)]).1 3 =
      some ([], [("primary_key", PVal.vbool true)]) ∧
    some (([] : List PVal), ([] : Dict)) ≠
      some (([] : List PVal), [("primary_key", PVal.vbool true)]) := by
  refine ⟨rfl, rfl, rfl, ?_⟩
  simp

/-- C1 (amended): `customize` returns a new type-descriptor class whose
`Attributes` class is a distinct heap object from the caller's
`Attributes`; setting any constraint field on the new `Attributes`
leaves every field readable on the caller's `Attributes` unchanged; and
the call writes to no pre-existing class dict — neither the caller's
nor its `Attributes`', so every attribute *binding* readable on them is
unchanged.  The one exception, forced by the counterexample above, is
the in-place mutation of a shared `sqla_column_args` keyword dict by
the `pk`/`primary_key`, `autoincrement`, `onupdate` and
`server_default` overrides when the caller's bundle was not `None`:
that dict's contents, observable through the caller's `Attributes`,
may change even though the binding itself does not. -/
theorem customize_mutation_isolation (dflt : Bool) (h : Heap) (D aD : Nat)
    (kwargs : List (String × PVal)) (hwf : HeapWF h) (hD : D < h.len)
    (haD : aD < h.len)
    (hA : hGetattr h D "Attributes" = some (PVal.vclsRef aD)) :
    (customize dflt h D kwargs).2 ≠ D ∧
    attrsIdOf (customize dflt h D kwargs).1 (customize dflt h D kwargs).2 ≠ aD ∧
    ((customize dflt h D kwargs).1.get D = h.get D) ∧
    (∀ k, hGetattr (customize dflt h D kwargs).1 D k = hGetattr h D k) ∧
    (∀ k, hGetattr (customize dflt h D kwargs).1 aD k = hGetattr h aD k) ∧
    (∀ k v k2, hGetattr (hSetattr (customize dflt h D kwargs).1
        (attrsIdOf (customize dflt h D kwargs).1 (customize dflt h D kwargs).2)
        k v) aD k2 = hGetattr (customize dflt h D kwargs).1 aD k2) := by
  have hpres : ∀ x, x < h.len → (customize dflt h D kwargs).1.get x = h.get x :=
    fun x hx => customize_get_old dflt h D kwargs x hx
  refine ⟨?_, ?_, ?_, ?_, ?_, ?_⟩
  · rw [customize_snd]
    omega
  · rw [customize_attrsId]
    omega
  · exact hpres D hD
  · intro k
    exact hGetattr_pres h _ D k hwf hD hpres
  · intro k
    exact hGetattr_pres h _ aD k hwf haD hpres
  · intro k v k2
    rw [customize_attrsId]
    have hpres2 : ∀ x, x < h.len →
        (hSetattr (customize dflt h D kwargs).1 h.len k v).get x =
          h.get x :=
      fun x hx => (hSetattr_get_ne _ _ _ _ _ (by omega)).trans (hpres x hx)
    rw [hGetattr_pres h _ aD k2 hwf haD hpres2,
      hGetattr_pres h _ aD k2 hwf haD hpres]

/-- Witness for C1 (amended): customizing the concrete `ModelBase`
descriptor of the base heap (class 2, whose `Attributes` is class 0)
with a `min_occurs` override. -/
theorem customize_mutation_isolation_witness :
    (customize true baseHeap 2 [("min_occurs", PVal.vint 1)]).2 ≠ 2 ∧
    attrsIdOf (customize true baseHeap 2 [("min_occurs", PVal.vint 1)]).1
      (customize true baseHeap 2 [("min_occurs", PVal.vint 1)]).2 ≠ 0 ∧
    ((customize true baseHeap 2 [("min_occurs", PVal.vint 1)]).1.get 2 =
      baseHeap.get 2) ∧
    (∀ k, hGetattr (customize true baseHeap 2
      [("min_occurs", PVal.vint 1)]).1 2 k = hGetattr baseHeap 2 k) ∧
    (∀ k, hGetattr (customize true baseHeap 2
      [("min_occurs", PVal.vint 1)]).1 0 k = hGetattr baseHeap 0 k) ∧
    (∀ k v k2, hGetattr (hSetattr
        (customize true baseHeap 2 [("min_occurs", PVal.vint 1)]).1
        (attrsIdOf (customize true baseHeap 2 [("min_occurs", PVal.vint 1)]).1
          (customize true baseHeap 2 [("min_occurs", PVal.vint 1)]).2)
        k v) 0 k2 =
      hGetattr (customize true baseHeap 2 [("min_occurs", PVal.vint 1)]).1
        0 k2) :=
  customize_mutation_isolation true baseHeap 2 0 [("min_occurs", PVal.vint 1)]
    (by unfold HeapWF; decide) (by decide) (by decide) rfl

theorem applyKw1_get_mro (x : Heap) (a b : Nat) (k : String) (v : PVal)
    (j : Nat) : ((applyKw1 x a b k v).get j).mro = (x.get j).mro := by
  unfold applyKw1
  repeat' split
  all_goals first
    | rfl
    | exact hSetattr_get_mro _ _ _ _ _

theorem applyKwargs_get_mro (x : Heap) (a b : Nat)
    (ks : List (String × PVal)) (j : Nat) :
    ((applyKwargs x a b ks).get j).mro = (x.get j).mro := by
  induction ks generalizing x with
  | nil => rfl
  | cons kv t ih =>
    exact (ih (applyKw1 x a b kv.1 kv.2)).trans
      (applyKw1_get_mro x a b kv.1 kv.2 j)

theorem applyKwargs_single (x : Heap) (a b : Nat) (k : String) (v : PVal) :
    applyKwargs x a b [(k, v)] = applyKw1 x a b k v := rfl

theorem customize_attrs_mro (dflt : Bool) (h : Heap) (c : Nat)
    (ks : List (String × PVal)) :
    ((customize dflt h c ks).1.get h.len).mro =
      h.len :: (h.get (attrsIdOf h c)).mro := by
  rw [customize_attrs_get, applyKwargs_get_mro,
    halloc_get_ne _ _ _ (by rw [customizeAttrsCls_len]; omega),
    customizeAttrsCls_mro]

theorem customize_attrs_dict_single (dflt : Bool) (h : Heap) (c : Nat)
    (k : String) (v : PVal)
    (hk : ∀ (x : Heap) (a b : Nat), applyKw1 x a b k v = hSetattr x a k v) :
    ((customize dflt h c [(k, v)]).1.get h.len).dict =
      alinsert ((customizeAttrsCls dflt h (attrsIdOf h c)).get h.len).dict
        k v := by
  rw [customize_attrs_get, applyKwargs_single, hk _ _ _, hSetattr_get_dict,
    halloc_get_ne _ _ _ (by rw [customizeAttrsCls_len]; omega)]

theorem mroLookup_cons_none (hh : Heap) (j : Nat) (t : List Nat)
    (k : String) (hnone : alget ((hh.get j).dict) k = none) :
    mroLookup hh (j :: t) k = mroLookup hh t k := by
  simp only [mroLookup, hnone]

theorem mroLookup_cons_some (hh : Heap) (j : Nat) (t : List Nat)
    (k : String) (v : PVal) (hsome : alget ((hh.get j).dict) k = some v) :
    mroLookup hh (j :: t) k = some v := by
  simp only [mroLookup, hsome]

/-- C3: customizing twice in sequence from a base descriptor (one whose
`__orig__` is unset) leaves both constraints readable on the final
descriptor's `Attributes`, and its `__orig__` refers to the base
descriptor itself. -/
theorem customize_twice_chain (dflt1 dflt2 : Bool) (h : Heap) (D : Nat)
    (horig : pvIsNone (hGetattr h D "__orig__") = true) :
    hGetattr (customize dflt2 (customize dflt1 h D [("a", PVal.vint 1)]).1
        (customize dflt1 h D [("a", PVal.vint 1)]).2 [("b", PVal.vint 2)]).1
      (attrsIdOf
        (customize dflt2 (customize dflt1 h D [("a", PVal.vint 1)]).1
          (customize dflt1 h D [("a", PVal.vint 1)]).2 [("b", PVal.vint 2)]).1
        (customize dflt2 (customize dflt1 h D [("a", PVal.vint 1)]).1
          (customize dflt1 h D [("a", PVal.vint 1)]).2 [("b", PVal.vint 2)]).2)
      "a" = some (PVal.vint 1) ∧
    hGetattr (customize dflt2 (customize dflt1 h D [("a", PVal.vint 1)]).1
        (customize dflt1 h D [("a", PVal.vint 1)]).2 [("b", PVal.vint 2)]).1
      (attrsIdOf
        (customize dflt2 (customize dflt1 h D [("a", PVal.vint 1)]).1
          (customize dflt1 h D [("a", PVal.vint 1)]).2 [("b", PVal.vint 2)]).1
        (customize dflt2 (customize dflt1 h D [("a", PVal.vint 1)]).1
          (customize dflt1 h D [("a", PVal.vint 1)]).2 [("b", PVal.vint 2)]).2)
      "b" = some (PVal.vint 2) ∧
    hGetattr (customize dflt2 (customize dflt1 h D [("a", PVal.vint 1)]).1
        (customize dflt1 h D [("a", PVal.vint 1)]).2 [("b", PVal.vint 2)]).1
      (customize dflt2 (customize dflt1 h D [("a", PVal.vint 1)]).1
        (customize dflt1 h D [("a", PVal.vint 1)]).2 [("b", PVal.vint 2)]).2
      "__orig__" = some (PVal.vclsRef D) := by
  set h1 : Heap := (customize dflt1 h D [("a", PVal.vint 1)]).1 with hh1
  set c1 : Nat := (customize dflt1 h D [("a", PVal.vint 1)]).2 with hhc1
  set h2 : Heap := (customize dflt2 h1 c1 [("b", PVal.vint 2)]).1 with hh2
  set c2 : Nat := (customize dflt2 h1 c1 [("b", PVal.vint 2)]).2 with hhc2
  have hc1 : c1 = h.len + 2 := customize_snd dflt1 h D _
  have hlen1 : h1.len = h.len + 3 := customize_len dflt1 h D _
  have hc2 : c2 = h1.len + 2 := customize_snd dflt2 h1 c1 _
  have ha2 : attrsIdOf h2 c2 = h1.len := customize_attrsId dflt2 h1 c1 _
  have haPar2 : attrsIdOf h1 c1 = h.len := customize_attrsId dflt1 h D _
  have hka : ∀ (x : Heap) (a b : Nat),
      applyKw1 x a b "a" (PVal.vint 1) = hSetattr x a "a" (PVal.vint 1) :=
    fun x a b => rfl
  have hkb : ∀ (x : Heap) (a b : Nat),
      applyKw1 x a b "b" (PVal.vint 2) = hSetattr x a "b" (PVal.vint 2) :=
    fun x a b => rfl
  have hdict2 : (h2.get h1.len).dict =
      alinsert ((customizeAttrsCls dflt2 h1 (attrsIdOf h1 c1)).get h1.len).dict
        "b" (PVal.vint 2) :=
    customize_attrs_dict_single dflt2 h1 c1 "b" (PVal.vint 2) hkb
  have hmro2 : (h2.get h1.len).mro =
      h1.len :: (h1.get (attrsIdOf h1 c1)).mro :=
    customize_attrs_mro dflt2 h1 c1 _
  have hdict1 : (h1.get h.len).dict =
      alinsert ((customizeAttrsCls dflt1 h (attrsIdOf h D)).get h.len).dict
        "a" (PVal.vint 1) :=
    customize_attrs_dict_single dflt1 h D "a" (PVal.vint 1) hka
  have hpres21 : h2.get h.len = h1.get h.len :=
    customize_get_old dflt2 h1 c1 _ h.len (by omega)
  have hmro1 : (h1.get h.len).mro =
      h.len :: (h.get (attrsIdOf h D)).mro :=
    customize_attrs_mro dflt1 h D _
  have hcls1 : h1.get (h.len + 2) =
      ⟨[("__module__", (hGetattr h D "__module__").getD PVal.vnone)]
        ++ (if pvIsNone (hGetattr h D "__orig__")
            then [("__orig__", PVal.vclsRef D)] else [])
        ++ [("Attributes", PVal.vclsRef h.len),
            ("Annotations", PVal.vclsRef (h.len + 1))],
       (h.len + 2) :: (h.get D).mro⟩ :=
    customize_cls_get dflt1 h D _
  have hcls2 : h2.get (h1.len + 2) =
      ⟨[("__module__", (hGetattr h1 c1 "__module__").getD PVal.vnone)]
        ++ (if pvIsNone (hGetattr h1 c1 "__orig__")
            then [("__orig__", PVal.vclsRef c1)] else [])
        ++ [("Attributes", PVal.vclsRef h1.len),
            ("Annotations", PVal.vclsRef (h1.len + 1))],
       (h1.len + 2) :: (h1.get c1).mro⟩ :=
    customize_cls_get dflt2 h1 c1 _
  have horig1 : hGetattr h1 c1 "__orig__" = some (PVal.vclsRef D) := by
    rw [hc1]
    unfold hGetattr
    rw [hcls1]
    show mroLookup h1 ((h.len + 2) :: (h.get D).mro) "__orig__" = _
    rw [mroLookup_cons_some _ _ _ _ (PVal.vclsRef D) (by
      rw [hcls1]
      simp [horig, alget])]
  have hcond2 : pvIsNone (hGetattr h1 c1 "__orig__") = false := by
    rw [horig1]
    rfl
  have hpres2c1 : h2.get (h.len + 2) = h1.get (h.len + 2) :=
    customize_get_old dflt2 h1 c1 _ (h.len + 2) (by omega)
  refine ⟨?_, ?_, ?_⟩
  · -- constraint a, set by the first customize, read through the chain
    rw [ha2]
    unfold hGetattr
    rw [hmro2]
    rw [mroLookup_cons_none _ _ _ _ (by
      rw [hdict2, alget_alinsert_ne _ _ _ _ (by decide)]
      exact customizeAttrsCls_dict_other dflt2 h1 _ "a" (by decide)
        (by decide) (by decide) (by decide))]
    rw [haPar2, hmro1]
    rw [mroLookup_cons_some _ _ _ _ _ (by
      rw [hpres21, hdict1]
      exact alget_alinsert_self _ _ _)]
  · -- constraint b, set by the second customize
    rw [ha2]
    unfold hGetattr
    rw [hmro2]
    rw [mroLookup_cons_some _ _ _ _ _ (by
      rw [hdict2]
      exact alget_alinsert_self _ _ _)]
  · -- __orig__ of the twice-customized class refers to the base D
    rw [hc2]
    unfold hGetattr
    rw [hcls2]
    show mroLookup h2 ((h1.len + 2) :: (h1.get c1).mro) "__orig__" =
      some (PVal.vclsRef D)
    rw [mroLookup_cons_none _ _ _ _ (by
      rw [hcls2]
      simp [hcond2, alget])]
    rw [hc1, hcls1]
    show mroLookup h2 ((h.len + 2) :: (h.get D).mro) "__orig__" =
      some (PVal.vclsRef D)
    rw [mroLookup_cons_some _ _ _ _ (PVal.vclsRef D) (by
      rw [hpres2c1, hcls1]
      simp [horig, alget])]

/-- Witness for C3: the concrete `ModelBase` descriptor of the base heap
customized twice in sequence. -/
theorem customize_twice_chain_witness :
    hGetattr (customize true (customize true baseHeap 2
        [("a", PVal.vint 1)]).1 (customize true baseHeap 2
        [("a", PVal.vint 1)]).2 [("b", PVal.vint 2)]).1
      (attrsIdOf
        (customize true (customize true baseHeap 2 [("a", PVal.vint 1)]).1
          (customize true baseHeap 2 [("a", PVal.vint 1)]).2
          [("b", PVal.vint 2)]).1
        (customize true (customize true baseHeap 2 [("a", PVal.vint 1)]).1
          (customize true baseHeap 2 [("a", PVal.vint 1)]).2
          [("b", PVal.vint 2)]).2)
      "a" = some (PVal.vint 1) ∧
    hGetattr (customize true (customize true baseHeap 2
        [("a", PVal.vint 1)]).1 (customize true baseHeap 2
        [("a", PVal.vint 1)]).2 [("b", PVal.vint 2)]).1
      (attrsIdOf
        (customize true (customize true baseHeap 2 [("a", PVal.vint 1)]).1
          (customize true baseHeap 2 [("a", PVal.vint 1)]).2
          [("b", PVal.vint 2)]).1
        (customize true (customize true baseHeap 2 [("a", PVal.vint 1)]).1
          (customize true baseHeap 2 [("a", PVal.vint 1)]).2
          [("b", PVal.vint 2)]).2)
      "b" = some (PVal.vint 2) ∧
    hGetattr (customize true (customize true baseHeap 2
        [("a", PVal.vint 1)]).1 (customize true baseHeap 2
        [("a", PVal.vint 1)]).2 [("b", PVal.vint 2)]).1
      (customize true (customize true baseHeap 2 [("a", PVal.vint 1)]).1
        (customize true baseHeap 2 [("a", PVal.vint 1)]).2
        [("b", PVal.vint 2)]).2
      "__orig__" = some (PVal.vclsRef 2) :=
  customize_twice_chain true true baseHeap 2 rfl
